import Mathlib

/-!
Verification of the synthetic-data generator
`use_cases/The_Energy_Company/generate_data.py`
(`generate_energy_provider_data`).

The Python function builds five in-memory tables (customers, contracts,
smart-meter readings, billing, support cases).  We embed it shallowly:

* Calendar dates are a `Date` structure with proleptic-Gregorian day
  arithmetic (`pandas` timestamps compare chronologically; we model the
  order through a day count `Date.toDays`).
* Reading timestamps carry the randomized hour/minute
  (`day.replace(hour=..., minute=...)`), modelled by `DateTime`.
  The generator's `start_date`/`end_date` arguments are used by the
  original at midnight (they are calendar dates per the interface), so
  they are modelled as `Date`s; all derived period bounds are then
  midnight timestamps exactly as in the source.
* Every random draw (`random.*`, `np.random.*`, faker strings) is an
  explicit field of an `Env` oracle; distribution *supports* become
  hypotheses of the theorems (e.g. `randint(1, 5)` yields a value in
  `[1, 5]`), while draws with unbounded support (normal consumption)
  stay unconstrained.  Python float arithmetic is modelled over `ℚ`;
  `round(x, 2)` becomes `round2` (the half-even versus half-up tie rule
  is irrelevant to every claim below, which compare the same `round2`
  on both sides or differ by whole readings).
-/

set_option maxRecDepth 4000

/- Batteries marks the `Rat` arithmetic as `@[irreducible]`, which blocks
the elaborator's evaluation of concrete witnesses; restore the default
reducibility for this file (the kernel ignores reducibility anyway). -/
attribute [local semireducible] Rat.add Rat.mul Rat.sub Rat.inv

namespace EnergyDemo

/-! ## Calendar model -/

structure Date where
  year : Nat
  month : Nat
  day : Nat
deriving DecidableEq, Repr

def isLeap (y : Nat) : Bool :=
  (y % 4 == 0 && y % 100 != 0) || (y % 400 == 0)

def daysInMonth (y m : Nat) : Nat :=
  if m = 2 then (if isLeap y then 29 else 28)
  else if m = 4 ∨ m = 6 ∨ m = 9 ∨ m = 11 then 30 else 31

/-- Number of leap years strictly before year `y` (proleptic Gregorian). -/
def leapsBefore (y : Nat) : Nat :=
  (y + 3) / 4 - (y + 99) / 100 + (y + 399) / 400

/-- Days in months `1..m` of year `y`. -/
def daysUpToMonth (y : Nat) : Nat → Nat
  | 0 => 0
  | m + 1 => daysUpToMonth y m + daysInMonth y (m + 1)

/-- Day count of a date (0 = January 1 of year 0); chronological on valid
dates, mirroring `pandas.Timestamp` ordering. -/
def Date.toDays (d : Date) : Nat :=
  365 * d.year + leapsBefore d.year + daysUpToMonth d.year (d.month - 1) + (d.day - 1)

def Date.le (a b : Date) : Prop := a.toDays ≤ b.toDays

def Date.lt (a b : Date) : Prop := a.toDays < b.toDays

instance (a b : Date) : Decidable (Date.le a b) :=
  inferInstanceAs (Decidable (a.toDays ≤ b.toDays))

instance (a b : Date) : Decidable (Date.lt a b) :=
  inferInstanceAs (Decidable (a.toDays < b.toDays))

/-- The `min` of two timestamps as Python's `min` (first argument on ties). -/
def Date.minD (a b : Date) : Date := if Date.le a b then a else b

def Date.Valid (d : Date) : Prop :=
  1 ≤ d.month ∧ d.month ≤ 12 ∧ 1 ≤ d.day ∧ d.day ≤ daysInMonth d.year d.month

instance (d : Date) : Decidable d.Valid :=
  inferInstanceAs (Decidable (_ ∧ _ ∧ _ ∧ _))

def Date.nextDay (d : Date) : Date :=
  if d.day < daysInMonth d.year d.month then ⟨d.year, d.month, d.day + 1⟩
  else if d.month < 12 then ⟨d.year, d.month + 1, 1⟩
  else ⟨d.year + 1, 1, 1⟩

/-- The `timedelta(days=k)` addition. -/
def Date.addDays (d : Date) : Nat → Date
  | 0 => d
  | k + 1 => d.nextDay.addDays k

/-- The `timedelta(days=1)` subtraction (previous calendar day). -/
def Date.predDay (d : Date) : Date :=
  if 1 < d.day then ⟨d.year, d.month, d.day - 1⟩
  else if 1 < d.month then ⟨d.year, d.month - 1, daysInMonth d.year (d.month - 1)⟩
  else ⟨d.year - 1, 12, 31⟩

/-- Linear month index `12*year + (month-1)`. -/
def Date.monthIdx (d : Date) : Nat := 12 * d.year + (d.month - 1)

/-- The `pandas.DateOffset(months=k)` addition: shift the month, clamp the
day-of-month to the target month's length. -/
def Date.addMonths (d : Date) (k : Nat) : Date :=
  let t := d.monthIdx + k
  ⟨t / 12, t % 12 + 1, min d.day (daysInMonth (t / 12) (t % 12 + 1))⟩

/-- The `pd.date_range(start, end, freq='D')`: daily dates from `s` to `e`
inclusive. -/
def dateRange (s e : Date) : List Date :=
  (List.range (e.toDays + 1 - s.toDays)).map (fun k => s.addDays k)

structure DateTime where
  date : Date
  hour : Nat
  minute : Nat
deriving DecidableEq, Repr

def DateTime.toMinutes (t : DateTime) : Nat :=
  t.date.toDays * 1440 + t.hour * 60 + t.minute

def DateTime.le (a b : DateTime) : Prop := a.toMinutes ≤ b.toMinutes

instance (a b : DateTime) : Decidable (DateTime.le a b) :=
  inferInstanceAs (Decidable (a.toMinutes ≤ b.toMinutes))

def DateTime.midnight (d : Date) : DateTime := ⟨d, 0, 0⟩

/-! ## Calendar lemmas -/

theorem one_le_daysInMonth (y m : Nat) : 1 ≤ daysInMonth y m := by
  unfold daysInMonth
  split
  · split <;> omega
  · split <;> omega

theorem leapsBefore_succ (y : Nat) :
    leapsBefore (y + 1) = leapsBefore y + (if isLeap y then 1 else 0) := by
  simp only [leapsBefore, isLeap, Bool.or_eq_true, Bool.and_eq_true, beq_iff_eq,
    bne_iff_ne, ne_eq]
  split <;> omega

theorem daysUpToMonth_succ (y m : Nat) :
    daysUpToMonth y (m + 1) = daysUpToMonth y m + daysInMonth y (m + 1) := rfl

theorem daysUpToMonth_mono (y : Nat) {a b : Nat} (h : a ≤ b) :
    daysUpToMonth y a ≤ daysUpToMonth y b := by
  induction b with
  | zero =>
    have ha : a = 0 := by omega
    subst ha
    exact Nat.le_refl _
  | succ b ih =>
    rcases Nat.lt_or_ge a (b + 1) with hb | hb
    · have := ih (by omega)
      rw [daysUpToMonth_succ]
      omega
    · have ha : a = b + 1 := by omega
      subst ha
      exact Nat.le_refl _

theorem daysUpToMonth_pred (y m : Nat) (h : 1 ≤ m) :
    daysUpToMonth y (m - 1) + daysInMonth y m = daysUpToMonth y m := by
  obtain ⟨m', rfl⟩ : ∃ m', m = m' + 1 := ⟨m - 1, by omega⟩
  simp only [Nat.add_sub_cancel]
  exact (daysUpToMonth_succ y m').symm

theorem daysUpToMonth_12 (y : Nat) :
    daysUpToMonth y 12 = 365 + (if isLeap y then 1 else 0) := by
  cases h : isLeap y <;> simp [daysUpToMonth, daysInMonth, h]

theorem inYear_lt (d : Date) (hd : d.Valid) :
    daysUpToMonth d.year (d.month - 1) + (d.day - 1) <
      365 + (if isLeap d.year then 1 else 0) := by
  obtain ⟨h1, h2, h3, h4⟩ := hd
  have hstep := daysUpToMonth_pred d.year d.month h1
  have hmono := daysUpToMonth_mono d.year (a := d.month) (b := 12) h2
  have h12 := daysUpToMonth_12 d.year
  omega

theorem valid_nextDay {d : Date} (hd : d.Valid) : d.nextDay.Valid := by
  obtain ⟨h1, h2, h3, h4⟩ := hd
  unfold Date.nextDay
  split
  · rename_i h
    refine ⟨h1, h2, ?_, ?_⟩
    · show 1 ≤ d.day + 1
      omega
    · show d.day + 1 ≤ daysInMonth d.year d.month
      omega
  · split
    · rename_i h5
      refine ⟨?_, ?_, ?_, ?_⟩
      · show 1 ≤ d.month + 1
        omega
      · show d.month + 1 ≤ 12
        omega
      · show 1 ≤ 1
        omega
      · show 1 ≤ daysInMonth d.year (d.month + 1)
        exact one_le_daysInMonth _ _
    · refine ⟨?_, ?_, ?_, ?_⟩
      · show 1 ≤ 1
        omega
      · show 1 ≤ 12
        omega
      · show 1 ≤ 1
        omega
      · show 1 ≤ daysInMonth (d.year + 1) 1
        norm_num [daysInMonth]

theorem toDays_nextDay {d : Date} (hd : d.Valid) :
    d.nextDay.toDays = d.toDays + 1 := by
  obtain ⟨h1, h2, h3, h4⟩ := hd
  unfold Date.nextDay
  split
  · simp only [Date.toDays]
    omega
  · rename_i hday
    split
    · rename_i hm
      simp only [Date.toDays]
      have hstep := daysUpToMonth_pred d.year d.month h1
      have hm1 : (d.month + 1) - 1 = d.month := by omega
      rw [hm1]
      omega
    · rename_i hm
      have hm12 : d.month = 12 := by omega
      simp only [Date.toDays]
      rw [hm12] at h4 hday ⊢
      have h12 := daysUpToMonth_12 d.year
      have hstep := daysUpToMonth_pred d.year 12 (by omega)
      have hlb := leapsBefore_succ d.year
      have hdim : daysInMonth d.year 12 = 31 := by simp [daysInMonth]
      have h0 : daysUpToMonth (d.year + 1) (1 - 1) = 0 := rfl
      omega

theorem valid_addDays {d : Date} (hd : d.Valid) (k : Nat) : (d.addDays k).Valid := by
  induction k generalizing d with
  | zero => exact hd
  | succ k ih => exact ih (valid_nextDay hd)

theorem toDays_addDays {d : Date} (hd : d.Valid) (k : Nat) :
    (d.addDays k).toDays = d.toDays + k := by
  induction k generalizing d with
  | zero => rfl
  | succ k ih =>
    have h1 := ih (valid_nextDay hd)
    have h2 := toDays_nextDay hd
    show (d.nextDay.addDays k).toDays = _
    omega

theorem toDays_lt_of_year_lt {d e : Date} (hd : d.Valid) (he : e.Valid)
    (h : d.year < e.year) : d.toDays < e.toDays := by
  have hin := inYear_lt d hd
  have hmono : ∀ b a : Nat, a ≤ b →
      365 * a + leapsBefore a ≤ 365 * b + leapsBefore b := by
    intro b
    induction b with
    | zero =>
      intro a ha
      have h0 : a = 0 := by omega
      subst h0
      exact Nat.le_refl _
    | succ b ih =>
      intro a ha
      rcases Nat.lt_or_ge a (b + 1) with hb | hb
      · have h1 := ih a (by omega)
        have hlb := leapsBefore_succ b
        omega
      · have h0 : a = b + 1 := by omega
        subst h0
        exact Nat.le_refl _
  have hstep : 365 * (d.year + 1) + leapsBefore (d.year + 1)
      = 365 * d.year + leapsBefore d.year + 365 + (if isLeap d.year then 1 else 0) := by
    have hlb := leapsBefore_succ d.year
    omega
  have hm2 := hmono e.year (d.year + 1) (by omega)
  simp only [Date.toDays]
  omega

theorem toDays_lt_of_month_lt {d e : Date} (hd : d.Valid) (he : e.Valid)
    (hy : d.year = e.year) (h : d.month < e.month) : d.toDays < e.toDays := by
  obtain ⟨h1, h2, h3, h4⟩ := hd
  obtain ⟨g1, g2, g3, g4⟩ := he
  have hstep := daysUpToMonth_pred d.year d.month h1
  have hmono := daysUpToMonth_mono d.year (a := d.month) (b := e.month - 1) (by omega)
  simp only [Date.toDays, hy] at *
  omega

theorem toDays_lt_of_day_lt {d e : Date} (hd : d.Valid) (he : e.Valid)
    (hy : d.year = e.year) (hm : d.month = e.month) (h : d.day < e.day) :
    d.toDays < e.toDays := by
  obtain ⟨h1, h2, h3, h4⟩ := hd
  simp only [Date.toDays, hy, hm]
  omega

theorem toDays_inj {d e : Date} (hd : d.Valid) (he : e.Valid)
    (h : d.toDays = e.toDays) : d = e := by
  rcases Nat.lt_trichotomy d.year e.year with hy | hy | hy
  · exact absurd h (by have := toDays_lt_of_year_lt hd he hy; omega)
  · rcases Nat.lt_trichotomy d.month e.month with hm | hm | hm
    · exact absurd h (by have := toDays_lt_of_month_lt hd he hy hm; omega)
    · rcases Nat.lt_trichotomy d.day e.day with hd' | hd' | hd'
      · exact absurd h (by have := toDays_lt_of_day_lt hd he hy hm hd'; omega)
      · cases d; cases e; simp_all
      · exact absurd h (by have := toDays_lt_of_day_lt he hd hy.symm hm.symm hd'; omega)
    · exact absurd h (by have := toDays_lt_of_month_lt he hd hy.symm hm; omega)
  · exact absurd h (by have := toDays_lt_of_year_lt he hd hy; omega)

theorem monthIdx_le_of_toDays_le {d e : Date} (hd : d.Valid) (he : e.Valid)
    (h : d.toDays ≤ e.toDays) : d.monthIdx ≤ e.monthIdx := by
  by_contra hlt
  have hym : e.year < d.year ∨ (e.year = d.year ∧ e.month < d.month) := by
    obtain ⟨h1, h2, _, _⟩ := hd
    obtain ⟨g1, g2, _, _⟩ := he
    simp only [Date.monthIdx] at hlt
    omega
  rcases hym with hy | ⟨hy, hm⟩
  · have := toDays_lt_of_year_lt he hd hy
    omega
  · have := toDays_lt_of_month_lt he hd hy hm
    omega

theorem monthIdx_addMonths (d : Date) (k : Nat) (hd : 1 ≤ d.month) :
    (d.addMonths k).monthIdx = d.monthIdx + k := by
  simp only [Date.addMonths, Date.monthIdx]
  omega

theorem month_addMonths_bounds (d : Date) (k : Nat) :
    1 ≤ (d.addMonths k).month ∧ (d.addMonths k).month ≤ 12 := by
  simp only [Date.addMonths]
  omega

theorem valid_addMonths {d : Date} (hd : d.Valid) (k : Nat) :
    (d.addMonths k).Valid := by
  obtain ⟨h1, h2, h3, h4⟩ := hd
  refine ⟨?_, ?_, ?_, ?_⟩
  · simp only [Date.addMonths]; omega
  · simp only [Date.addMonths]; omega
  · simp only [Date.addMonths]
    have := one_le_daysInMonth ((d.monthIdx + k) / 12) ((d.monthIdx + k) % 12 + 1)
    omega
  · simp only [Date.addMonths]
    omega

theorem addMonths_zero {d : Date} (hd : d.Valid) : d.addMonths 0 = d := by
  obtain ⟨h1, h2, h3, h4⟩ := hd
  simp only [Date.addMonths, Date.monthIdx]
  have hdiv : (12 * d.year + (d.month - 1) + 0) / 12 = d.year := by omega
  have hmod : (12 * d.year + (d.month - 1) + 0) % 12 = d.month - 1 := by omega
  rw [hdiv, hmod]
  have hm : d.month - 1 + 1 = d.month := by omega
  rw [hm]
  cases d
  simp_all

/-- The `period_start + DateOffset(months=1) - DateOffset(days=1)` for a
first-of-month `period_start` is the last day of that month. -/
theorem lastDay_eq_predDay_addMonths (y m : Nat) (h1 : 1 ≤ m) (h2 : m ≤ 12) :
    (Date.addMonths ⟨y, m, 1⟩ 1).predDay = ⟨y, m, daysInMonth y m⟩ := by
  rcases Nat.lt_or_ge m 12 with hm | hm
  · have hdiv : ((12 * y + (m - 1)) + 1) / 12 = y := by omega
    have hmod : ((12 * y + (m - 1)) + 1) % 12 = m := by omega
    simp only [Date.addMonths, Date.monthIdx, hdiv, hmod]
    have hmin : min 1 (daysInMonth y (m + 1)) = 1 := by
      have := one_le_daysInMonth y (m + 1)
      omega
    rw [hmin]
    unfold Date.predDay
    simp only
    rw [if_neg (by omega : ¬ (1 < 1)), if_pos (by omega : 1 < m + 1)]
    simp
  · have hm12 : m = 12 := by omega
    subst hm12
    have hdiv : ((12 * y + (12 - 1)) + 1) / 12 = y + 1 := by omega
    have hmod : ((12 * y + (12 - 1)) + 1) % 12 = 0 := by omega
    simp only [Date.addMonths, Date.monthIdx, hdiv, hmod]
    have hmin : min 1 (daysInMonth (y + 1) (0 + 1)) = 1 := by
      have := one_le_daysInMonth (y + 1) (0 + 1)
      omega
    rw [hmin]
    unfold Date.predDay
    simp only
    rw [if_neg (by omega : ¬ (1 < 1)), if_neg (by omega : ¬ (1 < 0 + 1))]
    simp [daysInMonth]

/-! ## Numeric model

Python float arithmetic is modelled over `ℚ`; `round(x, 2)` becomes
`round2`. -/

/-- The `round(x, 2)`: round to two decimal places (`⌊x + 1/2⌋` computed by
`Rat.floor` so that it evaluates by kernel reduction). -/
def round2 (q : ℚ) : ℚ := ((q * 100 + 1 / 2).floor : ℚ) / 100

/-! ## Random oracle

Every call to `random.*`, `np.random.*` or `faker` in
`generate_energy_provider_data` is a field of `Env`, indexed by the
numeric customer id and, where applicable, the loop position (calendar
day, contract slot, case number).  Support constraints of the bounded
draws (`random.randint`, `random.uniform`, `random.sample`) appear as
hypotheses of the theorems below. -/

structure Env where
  /-- The `fake.first_name()` for customer `c`. -/
  firstName : Nat → String
  /-- The `fake.last_name()` for customer `c`. -/
  lastName : Nat → String
  /-- The `fake.free_email_domain()` for customer `c`. -/
  emailDomain : Nat → String
  /-- The `fake.street_address()` for customer `c`. -/
  street : Nat → String
  /-- The `fake.city()` for customer `c`. -/
  city : Nat → String
  /-- The `fake.postcode()` for customer `c`. -/
  postal : Nat → String
  /-- The `random.choices(['residential', 'commercial'], ...)` draw. -/
  ctype : Nat → String
  /-- The `random.choices(['active', 'suspended', 'canceled'], ...)` draw. -/
  accountStatus : Nat → String
  /-- The `fake.date_between('-8y', '-1y')` join date. -/
  joinDate : Nat → Date
  /-- The `random.choices([1, 2], ...)` contract count. -/
  numContracts : Nat → Nat
  /-- The `random.choice(['electricity', 'gas', 'solar panel lease'])` for
  slot `j` of customer `c`. -/
  serviceChoice : Nat → Nat → String
  /-- The `random.choice(['Green Fix', 'Energy Plus Variable', 'Basic Home'])`. -/
  tariffPlan : Nat → Nat → String
  /-- The `fake.date_between('-4y', '-6m')` contract start. -/
  contractStart : Nat → Nat → Date
  /-- The `random.choices([None, fake.date_between(...)], ...)` contract end. -/
  contractEnd : Nat → Nat → Option Date
  /-- The `random.choices(['active', 'pending renewal', 'expired'], ...)`. -/
  contractStatus : Nat → Nat → String
  /-- The sampled anomaly customers, in the iteration order of the
  Python set `anomaly_customers` (`random.sample(all_residential_ids,
  k=min(15, len(all_residential_ids)))`). -/
  anomalyOrder : List Nat
  /-- The `np.random.normal(...)` base consumption for customer `c`, day `d`
  (unbounded support, so unconstrained). -/
  base : Nat → Date → ℚ
  /-- The `random.uniform(5, 8)` anomaly spike factor. -/
  spikeFactor : Nat → Date → ℚ
  /-- The `np.random.uniform(1.0, 5.5)` solar generation. -/
  genVal : Nat → Date → ℚ
  /-- The `random.randint(0, 23)` reading hour. -/
  hour : Nat → Date → Nat
  /-- The `random.randint(0, 59)` reading minute. -/
  minute : Nat → Date → Nat
  /-- The members of the Python set `customers_for_cases`
  (20% sample ∪ anomaly ∪ overdue customers), in iteration order. -/
  caseCustomers : List Nat
  /-- The `random.randint(1, 2)` number of support cases. -/
  numCases : Nat → Nat
  /-- The `fake.date_time_between(start_date, end_date).date()` initial case
  date (kept only in the general branch). -/
  generalCaseDate : Nat → Nat → Date
  /-- The `random.choice(['service outage', 'meter reading issue', 'tariff plan query'])`. -/
  generalIssue : Nat → Nat → String
  /-- The `random.randint(1, 5)` case-date offset (one draw per emitted
  case; only one of the two `randint(1, 5)` call sites runs per case). -/
  caseOff : Nat → Nat → Nat
  /-- The `random.choices(['closed', 'open', 'escalated'], ...)`. -/
  resolution : Nat → Nat → String

/-! ## Row types -/

structure Customer where
  /-- Numeric customer id; the Python renders it as `CID_{id:06}` and
  recovers the number via `int(customer_id.split('_')[1])`. -/
  id : Nat
  name : String
  email : String
  street : String
  city : String
  postal : String
  ctype : String
  accountStatus : String
  joinDate : Date
deriving DecidableEq, Repr

structure Contract where
  conId : Nat
  customer : Nat
  serviceType : String
  tariffPlan : String
  startDate : Date
  endDate : Option Date
  status : String
deriving DecidableEq, Repr

structure Reading where
  rid : Nat
  customer : Nat
  meterId : String
  ts : DateTime
  kwh : ℚ
  gen : ℚ
deriving DecidableEq, Repr

structure Invoice where
  iid : Nat
  customer : Nat
  invoiceDate : Date
  dueDate : Date
  amount : ℚ
  status : String
  periodStart : Date
  periodEnd : Date
deriving DecidableEq, Repr

structure SupportCase where
  cid : Nat
  customer : Nat
  caseDate : Date
  issueType : String
  resolution : String
  description : String
deriving DecidableEq, Repr

/-! ## Decimal rendering (Python `str` on a positive int, used in
`f"MTR-{...}"`) -/

def digitChar (n : Nat) : Char :=
  match n with
  | 0 => '0' | 1 => '1' | 2 => '2' | 3 => '3' | 4 => '4'
  | 5 => '5' | 6 => '6' | 7 => '7' | 8 => '8' | 9 => '9'
  | _ => '*'

/-- Little-endian decimal digits computed with structural fuel so that
kernel reduction works; agrees with `Nat.digits 10` (see
`digitsRev_eq_digits`). -/
def digitsRev (fuel : Nat) : Nat → List Nat :=
  match fuel with
  | 0 => fun _ => []
  | fuel + 1 => fun n =>
    match n with
    | 0 => []
    | n + 1 => ((n + 1) % 10) :: digitsRev fuel ((n + 1) / 10)

/-- Decimal string of `n` (empty for 0; meter ids are always ≥ 13346). -/
def decimalStr (n : Nat) : String :=
  ⟨((digitsRev n n).reverse).map digitChar⟩

/-! ## Stage 1: customers -/

/-- The `customer_ids = [f"CID_{1001 + i:06}" for i in range(num_customers)]`,
kept as the numeric part. -/
def customerIds (n : Int) : List Nat :=
  (List.range n.toNat).map (fun i => 1001 + i)

def customerRow (env : Env) (c : Nat) : Customer :=
  { id := c
    name := env.firstName c ++ " " ++ env.lastName c
    email := (env.firstName c).toLower ++ "." ++ (env.lastName c).toLower
      ++ "@" ++ env.emailDomain c
    street := env.street c
    city := env.city c
    postal := env.postal c
    ctype := env.ctype c
    accountStatus := env.accountStatus c
    joinDate := env.joinDate c }

def customersRows (env : Env) (n : Int) : List Customer :=
  (customerIds n).map (customerRow env)

/-- The `all_residential_ids`. -/
def residentialIds (env : Env) (n : Int) : List Nat :=
  (((customersRows env n).filter (fun cu => cu.ctype == "residential")).map
    (fun cu => cu.id))

/-! ## Stage 2: contracts -/

/-- The contract slots `(slot index, service type)` actually emitted for
one customer: slots whose drawn service type repeats an earlier one are
skipped (`if service_type in services: continue`). -/
def contractSlots (env : Env) (c : Nat) : List (Nat × String) :=
  (List.range (env.numContracts c)).foldl
    (fun acc j =>
      let st := env.serviceChoice c j
      if st ∈ acc.map Prod.snd then acc else acc ++ [(j, st)])
    []

def contractRow (env : Env) (c : Nat) (slot : Nat × String) : Contract :=
  { conId := 0
    customer := c
    serviceType := slot.2
    tariffPlan := env.tariffPlan c slot.1
    startDate := env.contractStart c slot.1
    endDate := env.contractEnd c slot.1
    status := env.contractStatus c slot.1 }

def contractsRows (env : Env) (n : Int) : List Contract :=
  (((customerIds n).flatMap (fun c => (contractSlots env c).map (contractRow env c))).enum).map
    (fun p => { p.2 with conId := 5001 + p.1 })

/-- The `solar_customers`: customers holding a `'solar panel lease'` contract. -/
def solarCustomers (env : Env) (n : Int) : List Nat :=
  (((contractsRows env n).filter (fun ct => ct.serviceType == "solar panel lease")).map
    (fun ct => ct.customer))

/-! ## Stage 3: smart-meter readings -/

/-- The `anomaly_spike_date = datetime(2025, 8, 15)`. -/
def anomalySpikeDate : Date := ⟨2025, 8, 15⟩

def meterIdOf (c : Nat) : String := "MTR-" ++ decimalStr (c + 12345)

/-- One reading (`readings_data.append(...)`) for customer `c` on `day`. -/
def readingRow (env : Env) (solar anomaly : List Nat) (c : Nat) (day : Date) : Reading :=
  let baseC := env.base c day
  let kwh :=
    if c ∈ anomaly ∧ Date.le (anomalySpikeDate.predDay.predDay) day ∧
        Date.le day (anomalySpikeDate.addDays 2) then
      baseC * env.spikeFactor c day
    else baseC
  let gen :=
    if c ∈ solar ∧ (day.month = 6 ∨ day.month = 7 ∨ day.month = 8) then
      env.genVal c day
    else 0
  { rid := 0
    customer := c
    meterId := meterIdOf c
    ts := ⟨day, env.hour c day, env.minute c day⟩
    kwh := round2 (max 0 kwh)
    gen := round2 (max 0 gen) }

def readingsRows (env : Env) (n : Int) (sD eD : Date) : List Reading :=
  let solar := solarCustomers env n
  (((customerIds n).flatMap
      (fun c => (dateRange sD eD).map (readingRow env solar env.anomalyOrder c))).enum).map
    (fun p => { p.2 with rid := 100001 + p.1 })

/-! ## Stage 4: billing -/

/-- The `num_months = (end.year - start.year) * 12 + (end.month - start.month) + 1`
(Python int arithmetic, so over `ℤ`). -/
def numMonths (sD eD : Date) : Int :=
  ((eD.year : Int) - sD.year) * 12 + ((eD.month : Int) - sD.month) + 1

/-- The consumption filter of the billing stage: readings of customer `c`
whose full timestamp lies in `[period_start, period_end]`, both midnight
timestamps. -/
def sumKwhIn (rs : List Reading) (c : Nat) (ps pe : Date) : ℚ :=
  (((rs.filter (fun r => r.customer == c
      && decide (DateTime.le (DateTime.midnight ps) r.ts)
      && decide (DateTime.le r.ts (DateTime.midnight pe)))).map
    (fun r => r.kwh)).sum)

/-- The invoice record appended by one (non-skipped) iteration of the
billing month loop, before the invoice-id counter is applied. -/
def mkInvoice (rs : List Reading) (overdue : List Nat) (sD eD : Date)
    (c k : Nat) : Invoice :=
  let ps0 := sD.addMonths k
  let ps : Date := ⟨ps0.year, ps0.month, 1⟩
  let pe := Date.minD (ps.addMonths 1).predDay eD
  let amount := round2 (sumKwhIn rs c ps pe * (35 / 100) + 11 / 2)
  let invDate := pe.addDays 5
  let status :=
    if ps.month = eD.month ∧ ps.year = eD.year then "pending"
    else if c ∈ overdue ∧ ps.month = 8 then "overdue"
    else "paid"
  { iid := 0
    customer := c
    invoiceDate := invDate
    dueDate := invDate.addDays 14
    amount := amount
    status := status
    periodStart := ps
    periodEnd := pe }

/-- One iteration of the billing month loop: `none` when the
`if period_start > end_date: continue` branch fires. -/
def invoiceFor (rs : List Reading) (overdue : List Nat) (sD eD : Date)
    (c k : Nat) : Option Invoice :=
  if Date.lt eD (sD.addMonths k) then none
  else some (mkInvoice rs overdue sD eD c k)

/-- The `overdue_customers = set(list(anomaly_customers)[:7])`. -/
def overdueCustomers (env : Env) : List Nat := env.anomalyOrder.take 7

def billingRows (env : Env) (n : Int) (sD eD : Date) : List Invoice :=
  let rs := readingsRows env n sD eD
  let overdue := overdueCustomers env
  (((customerIds n).flatMap
      (fun c => (List.range (numMonths sD eD).toNat).filterMap
        (invoiceFor rs overdue sD eD c))).enum).map
    (fun p => { p.2 with iid := 80001 + p.1 })

/-! ## Stage 5: support cases -/

def anomalyCaseText : String :=
  "Customer inquired about unexpectedly high bill for August."

def overdueCaseText : String :=
  "Follow-up call regarding overdue payment for August invoice."

def generalCaseText : String :=
  "Customer called with a general query about their service."

def caseRow (env : Env) (anomaly overdue : List Nat) (c j : Nat) : SupportCase :=
  if c ∈ anomaly then
    { cid := 0
      customer := c
      caseDate := anomalySpikeDate.addDays (15 + env.caseOff c j)
      issueType := "billing inquiry"
      resolution := env.resolution c j
      description := anomalyCaseText }
  else if c ∈ overdue then
    { cid := 0
      customer := c
      caseDate := anomalySpikeDate.addDays (30 + env.caseOff c j)
      issueType := "billing inquiry"
      resolution := env.resolution c j
      description := overdueCaseText }
  else
    { cid := 0
      customer := c
      caseDate := env.generalCaseDate c j
      issueType := env.generalIssue c j
      resolution := env.resolution c j
      description := generalCaseText }

def supportRows (env : Env) : List SupportCase :=
  ((env.caseCustomers.flatMap
      (fun c => (List.range (env.numCases c)).map
        (caseRow env env.anomalyOrder (overdueCustomers env) c))).enum).map
    (fun p => { p.2 with cid := 101 + p.1 })

/-! ## The whole generator -/

structure Tables where
  customers : List Customer
  contracts : List Contract
  readings : List Reading
  billing : List Invoice
  supportCases : List SupportCase
deriving DecidableEq, Repr

def generate (env : Env) (n : Int) (sD eD : Date) : Tables :=
  { customers := customersRows env n
    contracts := contractsRows env n
    readings := readingsRows env n sD eD
    billing := billingRows env n sD eD
    supportCases := supportRows env }

/-- The `pd.to_datetime(df[col])` column conversions of the source read a
column of the just-built DataFrame (customers line 54, contracts lines
82-83, billing lines 168-169, support cases line 206).  On an empty table
`pd.DataFrame([])` has no columns at all, so the read raises
`KeyError(col)` with the first converted column's name, and the exception
propagates out of the generator.  The readings table (line 118) has no
such conversion, so an empty readings table alone never raises.  The
embedded run therefore returns the first such error in source order, and
the completed tables otherwise. -/
def generateExc (env : Env) (n : Int) (sD eD : Date) : Except String Tables :=
  if customersRows env n = [] then Except.error "KeyError: 'JOIN_DATE'"
  else if contractsRows env n = [] then Except.error "KeyError: 'START_DATE'"
  else if billingRows env n sD eD = [] then Except.error "KeyError: 'INVOICE_DATE'"
  else if supportRows env = [] then Except.error "KeyError: 'CASE_DATE'"
  else Except.ok (generate env n sD eD)

/-- Whether an `Except` run returned normally. -/
def excOk {α β : Type} : Except α β → Bool
  | Except.ok _ => true
  | Except.error _ => false

/-! ## List counting helpers -/

theorem countP_filterMap_opt {α β : Type} (f : α → Option β) (p : β → Bool) :
    ∀ l : List α,
      (l.filterMap f).countP p = l.countP (fun a => ((f a).map p).getD false)
  | [] => rfl
  | a :: l => by
    rw [List.filterMap_cons]
    cases hfa : f a with
    | none =>
      rw [List.countP_cons, countP_filterMap_opt f p l, hfa]
      simp
    | some b =>
      rw [List.countP_cons, List.countP_cons, countP_filterMap_opt f p l, hfa]
      simp

theorem countP_flatMap_zero {α β : Type} (g : α → List β) (p : β → Bool) :
    ∀ l : List α, (∀ a ∈ l, (g a).countP p = 0) → (l.flatMap g).countP p = 0
  | [], _ => rfl
  | a :: l, h => by
    rw [List.flatMap_cons, List.countP_append, h a (by simp),
      countP_flatMap_zero g p l (fun b hb => h b (by simp [hb]))]

theorem countP_flatMap_single {α β : Type} (g : α → List β) (p : β → Bool) :
    ∀ l : List α, ∀ a0 ∈ l, l.Nodup →
      (∀ a ∈ l, a ≠ a0 → (g a).countP p = 0) →
      (l.flatMap g).countP p = (g a0).countP p := by
  intro l
  induction l with
  | nil => intro a0 h; simp at h
  | cons a l ih =>
    intro a0 ha0 hnd hother
    rw [List.flatMap_cons, List.countP_append]
    rcases List.mem_cons.mp ha0 with rfl | hmem
    · have hz : (l.flatMap g).countP p = 0 := by
        refine countP_flatMap_zero g p l (fun b hb => ?_)
        refine hother b (by simp [hb]) (fun hba => ?_)
        subst hba
        exact (List.nodup_cons.mp hnd).1 hb
      omega
    · have hz : (g a).countP p = 0 :=
        hother a (by simp) (fun hba => (List.nodup_cons.mp hnd).1 (hba ▸ hmem))
      rw [hz, ih a0 hmem (List.nodup_cons.mp hnd).2
        (fun b hb => hother b (by simp [hb]))]
      omega

theorem countP_range_one (k0 : Nat) {n : Nat} {q : Nat → Bool} (hk : k0 < n)
    (hq : q k0 = true) (huniq : ∀ k, k < n → q k = true → k = k0) :
    (List.range n).countP q = 1 := by
  have hcongr : ∀ k ∈ List.range n, (q k = true ↔ (k == k0) = true) := by
    intro k hkr
    rcases Nat.decEq k k0 with hne | rfl
    · constructor
      · intro hqk
        exact absurd (huniq k (List.mem_range.mp hkr) hqk) hne
      · intro hbeq
        exact absurd (by simpa using hbeq) hne
    · simp [hq]
  rw [List.countP_congr hcongr]
  have : (List.range n).countP (fun k => k == k0) = (List.range n).count k0 := rfl
  rw [this, List.count_eq_one_of_mem (List.nodup_range n) (List.mem_range.mpr hk)]

theorem countP_range_zero (k0 : Nat) {n : Nat} {q : Nat → Bool}
    (hq : q k0 = false) (huniq : ∀ k, k < n → q k = true → k = k0) :
    (List.range n).countP q = 0 := by
  rw [List.countP_eq_zero]
  intro k hkr hqk
  have := huniq k (List.mem_range.mp hkr) hqk
  subst this
  rw [hq] at hqk
  cases hqk

/-- A counter-assignment pass `l.enum.map f` where `f` only rewrites the
id field leaves any id-blind count unchanged. -/
theorem countP_enum_assign {α : Type} (l : List α) (f : Nat × α → α)
    (p : α → Bool) (h : ∀ i a, p (f (i, a)) = p a) :
    (l.enum.map f).countP p = l.countP p := by
  rw [List.countP_map]
  have hcongr : ∀ x ∈ l.enum, ((p ∘ f) x = true ↔ p x.2 = true) := by
    intro x _
    have hx : f x = f (x.1, x.2) := rfl
    simp only [Function.comp, hx, h]
  rw [List.countP_congr hcongr]
  have : (fun x : Nat × α => p x.2) = (p ∘ Prod.snd) := rfl
  rw [this, ← List.countP_map, List.enum_map_snd]

theorem mem_enum_assign_iff {α : Type} (l : List α) (f : Nat × α → α) (b : α) :
    b ∈ l.enum.map f ↔ ∃ p ∈ l.enum, b = f p := by
  constructor
  · intro h
    obtain ⟨x, hx, rfl⟩ := List.mem_map.mp h
    exact ⟨x, hx, rfl⟩
  · rintro ⟨x, hx, rfl⟩
    exact List.mem_map.mpr ⟨x, hx, rfl⟩

theorem snd_mem_of_mem_enum {α : Type} {l : List α} {x : Nat × α}
    (h : x ∈ l.enum) : x.2 ∈ l := by
  have : x.2 ∈ l.enum.map Prod.snd := List.mem_map.mpr ⟨x, h, rfl⟩
  rwa [List.enum_map_snd] at this

theorem customerIds_nodup (n : Int) : (customerIds n).Nodup := by
  refine List.Nodup.map (fun a b hab => by omega) (List.nodup_range _)

theorem mem_customerIds {n : Int} {c : Nat} :
    c ∈ customerIds n ↔ ∃ i, i < n.toNat ∧ c = 1001 + i := by
  simp only [customerIds, List.mem_map, List.mem_range]
  constructor
  · rintro ⟨i, hi, rfl⟩; exact ⟨i, hi, rfl⟩
  · rintro ⟨i, hi, rfl⟩; exact ⟨i, hi, rfl⟩

/-! ## Inversion lemmas for the generated tables -/

theorem mem_readingsRows {env : Env} {n : Int} {sD eD : Date} {r : Reading}
    (hr : r ∈ readingsRows env n sD eD) :
    ∃ c ∈ customerIds n, ∃ day ∈ dateRange sD eD,
      r = { readingRow env (solarCustomers env n) env.anomalyOrder c day with
              rid := r.rid } := by
  unfold readingsRows at hr
  obtain ⟨⟨i, r0⟩, hp, rfl⟩ := (mem_enum_assign_iff _ _ _).mp hr
  have hr0 : r0 ∈ (customerIds n).flatMap
      (fun c => (dateRange sD eD).map
        (readingRow env (solarCustomers env n) env.anomalyOrder c)) :=
    snd_mem_of_mem_enum hp
  obtain ⟨c, hc, hmap⟩ := List.mem_flatMap.mp hr0
  obtain ⟨day, hday, rfl⟩ := List.mem_map.mp hmap
  exact ⟨c, hc, day, hday, rfl⟩

theorem invoiceFor_eq_some {rs : List Reading} {od : List Nat} {sD eD : Date}
    {c k : Nat} {inv : Invoice} :
    invoiceFor rs od sD eD c k = some inv ↔
      Date.le (sD.addMonths k) eD ∧ inv = mkInvoice rs od sD eD c k := by
  unfold invoiceFor
  split
  · rename_i hlt
    simp only [Date.lt, Date.le] at *
    constructor
    · intro h; cases h
    · intro ⟨h1, _⟩; omega
  · rename_i hlt
    simp only [Date.lt, Date.le] at *
    constructor
    · intro h
      exact ⟨by omega, (Option.some_inj.mp h).symm⟩
    · intro ⟨_, h2⟩
      rw [h2]

theorem mem_billingRows {env : Env} {n : Int} {sD eD : Date} {inv : Invoice}
    (hinv : inv ∈ billingRows env n sD eD) :
    ∃ c ∈ customerIds n, ∃ k < (numMonths sD eD).toNat,
      Date.le (sD.addMonths k) eD ∧
      inv = { mkInvoice (readingsRows env n sD eD) (overdueCustomers env) sD eD c k with
                iid := inv.iid } := by
  unfold billingRows at hinv
  obtain ⟨⟨i, inv0⟩, hp, rfl⟩ := (mem_enum_assign_iff _ _ _).mp hinv
  have hinv0 : inv0 ∈ (customerIds n).flatMap
      (fun c => (List.range (numMonths sD eD).toNat).filterMap
        (invoiceFor (readingsRows env n sD eD) (overdueCustomers env) sD eD c)) :=
    snd_mem_of_mem_enum hp
  obtain ⟨c, hc, hfm⟩ := List.mem_flatMap.mp hinv0
  obtain ⟨k, hk, hsome⟩ := List.mem_filterMap.mp hfm
  obtain ⟨hle, rfl⟩ := invoiceFor_eq_some.mp hsome
  exact ⟨c, hc, k, List.mem_range.mp hk, hle, rfl⟩

theorem mem_supportRows {env : Env} {cs : SupportCase}
    (hcs : cs ∈ supportRows env) :
    ∃ c ∈ env.caseCustomers, ∃ j < env.numCases c,
      cs = { caseRow env env.anomalyOrder (overdueCustomers env) c j with
               cid := cs.cid } := by
  unfold supportRows at hcs
  obtain ⟨⟨i, cs0⟩, hp, rfl⟩ := (mem_enum_assign_iff _ _ _).mp hcs
  have hcs0 : cs0 ∈ env.caseCustomers.flatMap
      (fun c => (List.range (env.numCases c)).map
        (caseRow env env.anomalyOrder (overdueCustomers env) c)) :=
    snd_mem_of_mem_enum hp
  obtain ⟨c, hc, hmap⟩ := List.mem_flatMap.mp hcs0
  obtain ⟨j, hj, rfl⟩ := List.mem_map.mp hmap
  exact ⟨c, hc, j, List.mem_range.mp hj, rfl⟩

/-! ## Further calendar lemmas used by the claims -/

theorem count_dateRange {s e d : Date} (hs : s.Valid) (hd : d.Valid)
    (h1 : Date.le s d) (h2 : Date.le d e) :
    (dateRange s e).count d = 1 := by
  simp only [Date.le] at h1 h2
  unfold dateRange
  rw [List.count_eq_countP, List.countP_map]
  have hcongr : ∀ k ∈ List.range (e.toDays + 1 - s.toDays),
      ((fun x => x == d) ∘ (fun k => s.addDays k)) k = true ↔ (k == d.toDays - s.toDays) = true := by
    intro k _
    simp only [Function.comp, beq_iff_eq]
    constructor
    · intro hk
      have := toDays_addDays hs k
      rw [hk] at this
      omega
    · intro hk
      have hk' : k = d.toDays - s.toDays := by omega
      subst hk'
      refine toDays_inj (valid_addDays hs _) hd ?_
      rw [toDays_addDays hs]
      omega
  rw [List.countP_congr hcongr]
  have : (List.range (e.toDays + 1 - s.toDays)).countP (fun k => k == d.toDays - s.toDays)
      = (List.range (e.toDays + 1 - s.toDays)).count (d.toDays - s.toDays) := rfl
  rw [this, List.count_eq_one_of_mem (List.nodup_range _) (List.mem_range.mpr (by omega))]

theorem toDays_le_addMonths {d : Date} (hd : d.Valid) (k : Nat) :
    d.toDays ≤ (d.addMonths k).toDays := by
  rcases Nat.eq_zero_or_pos k with rfl | hk
  · rw [addMonths_zero hd]
  · have hv := valid_addMonths hd k
    have hmi := monthIdx_addMonths d k hd.1
    have hb := month_addMonths_bounds d k
    have hym : d.year < (d.addMonths k).year ∨
        (d.year = (d.addMonths k).year ∧ d.month < (d.addMonths k).month) := by
      simp only [Date.monthIdx] at hmi
      have h2 := hd.1
      have h3 := hd.2.1
      omega
    rcases hym with hy | ⟨hy, hm⟩
    · exact Nat.le_of_lt (toDays_lt_of_year_lt hd hv hy)
    · exact Nat.le_of_lt (toDays_lt_of_month_lt hd hv hy hm)

theorem numMonths_toNat {sD eD : Date} (h1 : 1 ≤ sD.month) (h2 : 1 ≤ eD.month)
    (hm : sD.monthIdx ≤ eD.monthIdx) :
    (numMonths sD eD).toNat = eD.monthIdx - sD.monthIdx + 1 := by
  simp only [numMonths, Date.monthIdx] at *
  omega

theorem year_month_of_between {e : Date} {y m : Nat} (he : e.Valid)
    (h1 : 1 ≤ m) (h2 : m ≤ 12)
    (hlo : Date.le ⟨y, m, 1⟩ e) (hhi : Date.le e ⟨y, m, daysInMonth y m⟩) :
    e.year = y ∧ e.month = m := by
  have hvlo : (⟨y, m, 1⟩ : Date).Valid := ⟨h1, h2, Nat.le_refl 1, one_le_daysInMonth y m⟩
  have hvhi : (⟨y, m, daysInMonth y m⟩ : Date).Valid :=
    ⟨h1, h2, one_le_daysInMonth y m, Nat.le_refl _⟩
  simp only [Date.le] at hlo hhi
  rcases Nat.lt_trichotomy e.year y with hy | hy | hy
  · have := toDays_lt_of_year_lt he hvlo (by simpa using hy)
    omega
  · rcases Nat.lt_trichotomy e.month m with hmm | hmm | hmm
    · have := toDays_lt_of_month_lt he hvlo (by simpa using hy) (by simpa using hmm)
      omega
    · exact ⟨hy, hmm⟩
    · have := toDays_lt_of_month_lt hvhi he (by simpa using hy.symm) (by simpa using hmm)
      omega
  · have := toDays_lt_of_year_lt hvhi he (by simpa using hy)
    omega

/-! ## mkInvoice field lemmas -/

theorem mkInvoice_periodStart (rs : List Reading) (od : List Nat)
    (sD eD : Date) (c k : Nat) :
    (mkInvoice rs od sD eD c k).periodStart
      = ⟨(sD.addMonths k).year, (sD.addMonths k).month, 1⟩ := rfl

theorem mkInvoice_periodStart_monthIdx (rs : List Reading) (od : List Nat)
    {sD : Date} (eD : Date) (c k : Nat) (h : 1 ≤ sD.month) :
    (mkInvoice rs od sD eD c k).periodStart.monthIdx = sD.monthIdx + k := by
  rw [mkInvoice_periodStart]
  have := monthIdx_addMonths sD k h
  simp only [Date.monthIdx] at *
  omega

theorem invoiceFor_opt_pred {rs : List Reading} {od : List Nat} {sD eD : Date}
    {c k : Nat} (p : Invoice → Bool) :
    (((invoiceFor rs od sD eD c k).map p).getD false = true) ↔
      (Date.le (sD.addMonths k) eD ∧ p (mkInvoice rs od sD eD c k) = true) := by
  unfold invoiceFor
  split
  · rename_i hlt
    have h1 : eD.toDays < (sD.addMonths k).toDays := hlt
    simp only [Option.map_none', Option.getD_none]
    constructor
    · intro hF; exact Bool.noConfusion hF
    · rintro ⟨hle, _⟩
      have h2 : (sD.addMonths k).toDays ≤ eD.toDays := hle
      omega
  · rename_i hlt
    have h1 : ¬ (eD.toDays < (sD.addMonths k).toDays) := hlt
    simp only [Option.map_some', Option.getD_some]
    constructor
    · intro hp
      refine ⟨?_, hp⟩
      show (sD.addMonths k).toDays ≤ eD.toDays
      omega
    · rintro ⟨_, hp⟩
      exact hp

/-! ## Concrete environments for witnesses and counterexamples -/

/-- A fully concrete oracle: one residential customer profile, constant
draws inside every distribution's support, no anomaly customers. -/
def demoEnv : Env :=
  { firstName := fun _ => "Anna"
    lastName := fun _ => "Muster"
    emailDomain := fun _ => "example.de"
    street := fun _ => "Hauptstr. 1"
    city := fun _ => "Berlin"
    postal := fun _ => "10115"
    ctype := fun _ => "residential"
    accountStatus := fun _ => "active"
    joinDate := fun _ => ⟨2020, 1, 1⟩
    numContracts := fun _ => 1
    serviceChoice := fun _ _ => "electricity"
    tariffPlan := fun _ _ => "Basic Home"
    contractStart := fun _ _ => ⟨2022, 1, 1⟩
    contractEnd := fun _ _ => none
    contractStatus := fun _ _ => "active"
    anomalyOrder := []
    base := fun _ _ => 10
    spikeFactor := fun _ _ => 6
    genVal := fun _ _ => 2
    hour := fun _ _ => 12
    minute := fun _ _ => 0
    caseCustomers := []
    numCases := fun _ => 1
    generalCaseDate := fun _ _ => ⟨2025, 1, 10⟩
    generalIssue := fun _ _ => "service outage"
    caseOff := fun _ _ => 3
    resolution := fun _ _ => "closed" }

/-- The `demoEnv` with customer 1001 as the (single) anomaly customer, who
therefore is also overdue and receives support cases. -/
def anomEnv : Env :=
  { demoEnv with anomalyOrder := [1001], caseCustomers := [1001] }

/-- The `demoEnv` whose only contract draw is a solar panel lease. -/
def solarEnv : Env :=
  { demoEnv with serviceChoice := fun _ _ => "solar panel lease" }

/-! ## Claims as stated -/

def firstOfMonth (d : Date) : Date := ⟨d.year, d.month, 1⟩

def lastOfMonth (d : Date) : Date := ⟨d.year, d.month, daysInMonth d.year d.month⟩

/-- Python `max` of two dates (second argument on ties is not relevant;
`max(a, b)` returns the later). -/
def Date.maxD (a b : Date) : Date := if Date.le a b then b else a

/-- The sum C1 speaks about: all of the customer's readings whose
*calendar day* lies within `[period_start, period_end]` inclusive. -/
def claimSum (rs : List Reading) (c : Nat) (ps pe : Date) : ℚ :=
  (((rs.filter (fun r => r.customer == c
      && decide (Date.le ps r.ts.date)
      && decide (Date.le r.ts.date pe))).map
    (fun r => r.kwh)).sum)

/-- What the billing filter actually selects, characterised at the
calendar-day level: days strictly before `period_end`, plus the
`period_end` day only when the randomized reading time is exactly
midnight. -/
def codeDaySum (rs : List Reading) (c : Nat) (ps pe : Date) : ℚ :=
  (((rs.filter (fun r => r.customer == c
      && decide (Date.le ps r.ts.date)
      && (decide (Date.lt r.ts.date pe)
          || (decide (r.ts.date.toDays = pe.toDays)
              && r.ts.hour == 0 && r.ts.minute == 0)))).map
    (fun r => r.kwh)).sum)

/-- C1 as stated. -/
def claimC1Stated (env : Env) (n : Int) (sD eD : Date) : Prop :=
  ∀ inv ∈ billingRows env n sD eD,
    inv.amount = round2 (claimSum (readingsRows env n sD eD) inv.customer
      inv.periodStart inv.periodEnd * (35 / 100) + 11 / 2)

/-- Number of invoices of customer `c` whose consumption period lies in
the calendar month with linear index `mi`. -/
def invoiceCountFor (env : Env) (n : Int) (sD eD : Date) (c mi : Nat) : Nat :=
  (billingRows env n sD eD).countP
    (fun inv => inv.customer == c && inv.periodStart.monthIdx == mi)

/-- C2 as stated. -/
def claimC2Stated (env : Env) (n : Int) (sD eD : Date) : Prop :=
  ∀ c ∈ customerIds n, ∀ mi : Nat,
    sD.monthIdx ≤ mi → mi ≤ eD.monthIdx →
    invoiceCountFor env n sD eD c mi = 1

/-- C3 as stated. -/
def claimC3Stated (env : Env) (n : Int) (sD eD : Date) : Prop :=
  ∀ inv ∈ billingRows env n sD eD,
    inv.periodStart = Date.maxD (firstOfMonth inv.periodStart) sD ∧
    inv.periodEnd = Date.minD (lastOfMonth inv.periodStart) eD ∧
    Date.le sD inv.periodStart

/-- C4 as stated. -/
def claimC4Stated (env : Env) (n : Int) (sD eD : Date) : Prop :=
  (∀ c ∈ customerIds n, ∃ inv ∈ billingRows env n sD eD, inv.customer = c ∧
    Date.le inv.periodStart eD ∧ Date.le eD inv.periodEnd ∧
    inv.status = "pending") ∧
  (∀ inv ∈ billingRows env n sD eD,
    ¬ (Date.le inv.periodStart eD ∧ Date.le eD inv.periodEnd) →
    ((inv.status = "overdue" ↔
        inv.customer ∈ overdueCustomers env ∧ inv.periodStart.month = 8) ∧
      (inv.status ≠ "overdue" → inv.status = "paid"))) ∧
  (∀ inv ∈ billingRows env n sD eD,
    inv.invoiceDate = inv.periodEnd.addDays 5 ∧
    inv.dueDate = inv.invoiceDate.addDays 14)

/-- C5 as stated: on invalid input the generator raises instead of
returning tables. -/
def claimC5Stated : Prop :=
  ∀ (env : Env) (n : Int) (sD eD : Date),
    (n ≤ 0 ∨ Date.lt eD sD ∨ (residentialIds env n).length < 15) →
    ∃ msg, generateExc env n sD eD = Except.error msg

/-! ## Claim C3 -/

/-- C3 fails on the code: with the window 2025-01-15 .. 2025-01-20 the
generated invoice's `CONSUMPTION_PERIOD_START` is 2025-01-01, the plain
first of the month, not the later start date (the Python only runs
`period_start.replace(day=1)` and never clamps to `start_date`). -/
theorem c3_counterexample :
    ¬ claimC3Stated demoEnv 1 ⟨2025, 1, 15⟩ ⟨2025, 1, 20⟩ := by
  unfold claimC3Stated
  decide

/-- C3 (amended): for every invoice, `CONSUMPTION_PERIOD_START` is the
first day of the period's month — it is *not* clamped to the generation
start date and can precede it — while `CONSUMPTION_PERIOD_END` is the
earlier of the last day of that month and the generation end date. -/
theorem c3_amended (env : Env) (n : Int) (sD eD : Date) :
    ∀ inv ∈ billingRows env n sD eD,
      inv.periodStart.day = 1 ∧
      inv.periodEnd = Date.minD (lastOfMonth inv.periodStart) eD := by
  intro inv hinv
  obtain ⟨c, hc, k, hk, hle, heq⟩ := mem_billingRows hinv
  rw [heq]
  constructor
  · rfl
  · have hb := month_addMonths_bounds sD k
    show Date.minD ((Date.addMonths ⟨(sD.addMonths k).year, (sD.addMonths k).month, 1⟩ 1).predDay) eD
        = Date.minD (lastOfMonth ⟨(sD.addMonths k).year, (sD.addMonths k).month, 1⟩) eD
    rw [lastDay_eq_predDay_addMonths _ _ hb.1 hb.2]
    rfl

/-! ## Claim C2 -/

/-- Reduce an id-blind invoice count over the whole billing table to the
single block of the customer the predicate pins down. -/
theorem billingRows_countP (env : Env) (n : Int) (sD eD : Date)
    (p : Invoice → Bool)
    (hid : ∀ (i : Nat) (inv : Invoice), p { inv with iid := i } = p inv)
    (c : Nat) (hc : c ∈ customerIds n)
    (hcust : ∀ inv : Invoice, p inv = true → inv.customer = c) :
    (billingRows env n sD eD).countP p
      = ((List.range (numMonths sD eD).toNat).filterMap
          (invoiceFor (readingsRows env n sD eD) (overdueCustomers env) sD eD c)).countP
        p := by
  unfold billingRows
  rw [countP_enum_assign _ _ _ (fun i a => hid (80001 + i) a)]
  refine countP_flatMap_single _ _ _ c hc (customerIds_nodup n) ?_
  intro c' hc' hne
  rw [List.countP_eq_zero]
  intro inv hinv hp
  obtain ⟨k, hk, hsome⟩ := List.mem_filterMap.mp hinv
  obtain ⟨hle, rfl⟩ := invoiceFor_eq_some.mp hsome
  exact hne (hcust _ hp)

/-- C2 fails on the code: with start 2025-01-31 and end 2025-02-15 the
offset for February is `2025-01-31 + DateOffset(months=1) = 2025-02-28`,
which is past the end date, so the `continue` branch skips the February
invoice entirely even though February intersects the window. -/
theorem c2_counterexample :
    ¬ claimC2Stated demoEnv 1 ⟨2025, 1, 31⟩ ⟨2025, 2, 15⟩ := by
  intro h
  have h2 := h 1001 (by decide) (Date.monthIdx ⟨2025, 2, 15⟩) (by decide) (by omega)
  exact absurd h2 (by decide)

/-- C2 (amended): for every customer and every calendar month index `mi`
between the start and end months, exactly one invoice has its period in
that month **iff** `start_date + DateOffset(months=mi - startMonth)`
(with its day-of-month clamp) does not overshoot `end_date`; otherwise —
necessarily in the window's last month, when start's day-of-month
exceeds end's — that month is skipped.  No month ever receives two
invoices for the same customer. -/
theorem c2_amended (env : Env) (n : Int) (sD eD : Date)
    (hs : sD.Valid) (he : eD.Valid) (hse : Date.le sD eD) :
    ∀ c ∈ customerIds n, ∀ mi : Nat,
      sD.monthIdx ≤ mi → mi ≤ eD.monthIdx →
      invoiceCountFor env n sD eD c mi
        = if Date.le (sD.addMonths (mi - sD.monthIdx)) eD then 1 else 0 := by
  intro c hc mi hlo hhi
  unfold invoiceCountFor
  rw [billingRows_countP env n sD eD
    (fun inv => inv.customer == c && inv.periodStart.monthIdx == mi)
    (fun i inv => rfl) c hc
    (fun inv hp => by
      simp only [Bool.and_eq_true, beq_iff_eq] at hp
      exact hp.1)]
  rw [countP_filterMap_opt]
  have hN : (numMonths sD eD).toNat = eD.monthIdx - sD.monthIdx + 1 :=
    numMonths_toNat hs.1 he.1 (by omega)
  have hq : ∀ k,
      ((((invoiceFor (readingsRows env n sD eD) (overdueCustomers env) sD eD c k).map
          (fun inv => inv.customer == c && inv.periodStart.monthIdx == mi)).getD false)
        = true) ↔
      (Date.le (sD.addMonths k) eD ∧ sD.monthIdx + k = mi) := by
    intro k
    rw [invoiceFor_opt_pred]
    have hcu : (mkInvoice (readingsRows env n sD eD) (overdueCustomers env) sD eD c
        k).customer = c := rfl
    have hmi := mkInvoice_periodStart_monthIdx (readingsRows env n sD eD)
      (overdueCustomers env) eD c k hs.1
    rw [Bool.and_eq_true, hcu, hmi]
    simp [beq_iff_eq]
  rcases Decidable.em (Date.le (sD.addMonths (mi - sD.monthIdx)) eD) with hcond | hcond
  · rw [if_pos hcond]
    refine countP_range_one (mi - sD.monthIdx) (by omega) ?_ ?_
    · exact (hq (mi - sD.monthIdx)).mpr ⟨hcond, by omega⟩
    · intro k hkN hqk
      have := (hq k).mp hqk
      omega
  · rw [if_neg hcond]
    refine countP_range_zero (mi - sD.monthIdx) ?_ ?_
    · cases hb : (((invoiceFor (readingsRows env n sD eD) (overdueCustomers env) sD eD c
          (mi - sD.monthIdx)).map
          (fun inv => inv.customer == c && inv.periodStart.monthIdx == mi)).getD false)
      · rfl
      · exact absurd ((hq (mi - sD.monthIdx)).mp hb).1 hcond
    · intro k hkN hqk
      have := (hq k).mp hqk
      omega

/-- Witness for C2 (amended): window 2025-01-01 .. 2025-02-15, where the
February invoice does exist. -/
theorem c2_witness :
    invoiceCountFor demoEnv 1 ⟨2025, 1, 1⟩ ⟨2025, 2, 15⟩ 1001
        (Date.monthIdx ⟨2025, 2, 15⟩)
      = if Date.le (Date.addMonths ⟨2025, 1, 1⟩
            (Date.monthIdx ⟨2025, 2, 15⟩ - Date.monthIdx ⟨2025, 1, 1⟩)) ⟨2025, 2, 15⟩
        then 1 else 0 :=
  c2_amended demoEnv 1 ⟨2025, 1, 1⟩ ⟨2025, 2, 15⟩ (by decide) (by decide) (by decide)
    1001 (by decide) (Date.monthIdx ⟨2025, 2, 15⟩) (by decide) (by decide)

/-! ## Claim C4 -/

theorem monthIdx_inj {a b : Date} (h1 : 1 ≤ a.month) (h2 : a.month ≤ 12)
    (h3 : 1 ≤ b.month) (h4 : b.month ≤ 12) (h : a.monthIdx = b.monthIdx) :
    a.year = b.year ∧ a.month = b.month := by
  simp only [Date.monthIdx] at h
  omega

theorem month_mk (y m d : Nat) : (⟨y, m, d⟩ : Date).month = m := rfl

theorem mkInvoice_periodEnd (rs : List Reading) (od : List Nat)
    (sD eD : Date) (c k : Nat) :
    (mkInvoice rs od sD eD c k).periodEnd
      = Date.minD ⟨(sD.addMonths k).year, (sD.addMonths k).month,
          daysInMonth (sD.addMonths k).year (sD.addMonths k).month⟩ eD := by
  have hb := month_addMonths_bounds sD k
  show Date.minD
      ((Date.addMonths ⟨(sD.addMonths k).year, (sD.addMonths k).month, 1⟩ 1).predDay) eD = _
  rw [lastDay_eq_predDay_addMonths _ _ hb.1 hb.2]

theorem mkInvoice_invoiceDate (rs : List Reading) (od : List Nat)
    (sD eD : Date) (c k : Nat) :
    (mkInvoice rs od sD eD c k).invoiceDate
      = (mkInvoice rs od sD eD c k).periodEnd.addDays 5 := by
  simp only [mkInvoice]

theorem mkInvoice_dueDate (rs : List Reading) (od : List Nat)
    (sD eD : Date) (c k : Nat) :
    (mkInvoice rs od sD eD c k).dueDate
      = (mkInvoice rs od sD eD c k).invoiceDate.addDays 14 := by
  simp only [mkInvoice]

theorem mkInvoice_status_eq (rs : List Reading) (od : List Nat)
    (sD eD : Date) (c k : Nat) :
    (mkInvoice rs od sD eD c k).status
      = (if (sD.addMonths k).month = eD.month ∧ (sD.addMonths k).year = eD.year
          then "pending"
          else if c ∈ od ∧ (sD.addMonths k).month = 8 then "overdue" else "paid") := rfl

/-- A first-of-month/clamped-last-of-month period covers `eD` exactly
when it is `eD`'s own month. -/
theorem first_last_cover_iff {eD : Date} {Y M : Nat} (he : eD.Valid)
    (h1 : 1 ≤ M) (h2 : M ≤ 12) :
    (Date.le ⟨Y, M, 1⟩ eD ∧ Date.le eD (Date.minD ⟨Y, M, daysInMonth Y M⟩ eD)) ↔
      (M = eD.month ∧ Y = eD.year) := by
  constructor
  · rintro ⟨hA, hB⟩
    have hB' : Date.le eD ⟨Y, M, daysInMonth Y M⟩ := by
      unfold Date.minD at hB
      split at hB
      · exact hB
      · rename_i hnl
        show eD.toDays ≤ _
        have hx : ¬ ((⟨Y, M, daysInMonth Y M⟩ : Date).toDays ≤ eD.toDays) := hnl
        omega
    have h := year_month_of_between he h1 h2 hA hB'
    exact ⟨h.2.symm, h.1.symm⟩
  · rintro ⟨hM, hY⟩
    subst hM
    subst hY
    constructor
    · show Date.toDays ⟨eD.year, eD.month, 1⟩ ≤ eD.toDays
      have h3 := he.2.2.1
      simp only [Date.toDays]
      omega
    · unfold Date.minD
      split
      · show eD.toDays ≤ Date.toDays ⟨eD.year, eD.month, daysInMonth eD.year eD.month⟩
        have h4 := he.2.2.2
        simp only [Date.toDays]
        omega
      · show eD.toDays ≤ eD.toDays
        exact Nat.le_refl _

/-- Membership in the billing table for a non-skipped month offset. -/
theorem exists_mem_billingRows {env : Env} {n : Int} {sD eD : Date} {c k : Nat}
    (hc : c ∈ customerIds n) (hk : k < (numMonths sD eD).toNat)
    (hle : Date.le (sD.addMonths k) eD) :
    ∃ inv ∈ billingRows env n sD eD,
      inv.customer = c ∧
      inv.periodStart = (mkInvoice (readingsRows env n sD eD) (overdueCustomers env)
        sD eD c k).periodStart ∧
      inv.periodEnd = (mkInvoice (readingsRows env n sD eD) (overdueCustomers env)
        sD eD c k).periodEnd ∧
      inv.status = (mkInvoice (readingsRows env n sD eD) (overdueCustomers env)
        sD eD c k).status := by
  have h1 : mkInvoice (readingsRows env n sD eD) (overdueCustomers env) sD eD c k
      ∈ (customerIds n).flatMap
        (fun c => (List.range (numMonths sD eD).toNat).filterMap
          (invoiceFor (readingsRows env n sD eD) (overdueCustomers env) sD eD c)) :=
    List.mem_flatMap.mpr ⟨c, hc, List.mem_filterMap.mpr
      ⟨k, List.mem_range.mpr hk, invoiceFor_eq_some.mpr ⟨hle, rfl⟩⟩⟩
  rw [← List.enum_map_snd ((customerIds n).flatMap _)] at h1
  obtain ⟨x, hx, hsnd⟩ := List.mem_map.mp h1
  refine ⟨{ x.2 with iid := 80001 + x.1 }, ?_, ?_, ?_, ?_, ?_⟩
  · show _ ∈ billingRows env n sD eD
    unfold billingRows
    exact List.mem_map.mpr ⟨x, hx, rfl⟩
  · show x.2.customer = c
    rw [hsnd]
    rfl
  · show x.2.periodStart = _
    rw [hsnd]
  · show x.2.periodEnd = _
    rw [hsnd]
  · show x.2.status = _
    rw [hsnd]

/-- C4 fails on the code: with start 2025-01-31 and end 2025-02-15 the
February invoice is skipped (see C2), so no invoice of the customer
covers the end date and no invoice is `'pending'` — the lone January
invoice is `'paid'`. -/
theorem c4_counterexample :
    ¬ claimC4Stated demoEnv 1 ⟨2025, 1, 31⟩ ⟨2025, 2, 15⟩ := by
  unfold claimC4Stated
  decide

/-- C4 (amended): provided the end month's offset is not skipped
(`start_date + DateOffset(months=endMonth - startMonth) ≤ end_date`),
every customer has an invoice covering `end_date` and that invoice is
`'pending'`; any invoice covering `end_date` is `'pending'`; every
invoice not covering `end_date` is `'overdue'` iff its customer is in
the overdue subset (the first 7 anomaly customers in iteration order)
and its period month is August, and `'paid'` otherwise; and every
invoice has `INVOICE_DATE = period end + 5 days` and
`DUE_DATE = INVOICE_DATE + 14 days`. -/
theorem c4_amended (env : Env) (n : Int) (sD eD : Date)
    (hs : sD.Valid) (he : eD.Valid) (hse : Date.le sD eD)
    (hfit : Date.le (sD.addMonths (eD.monthIdx - sD.monthIdx)) eD) :
    (∀ c ∈ customerIds n, ∃ inv ∈ billingRows env n sD eD, inv.customer = c ∧
      Date.le inv.periodStart eD ∧ Date.le eD inv.periodEnd ∧
      inv.status = "pending") ∧
    (∀ inv ∈ billingRows env n sD eD,
      Date.le inv.periodStart eD → Date.le eD inv.periodEnd →
      inv.status = "pending") ∧
    (∀ inv ∈ billingRows env n sD eD,
      ¬ (Date.le inv.periodStart eD ∧ Date.le eD inv.periodEnd) →
      (inv.status = "overdue" ↔
        inv.customer ∈ overdueCustomers env ∧ inv.periodStart.month = 8)) ∧
    (∀ inv ∈ billingRows env n sD eD,
      ¬ (Date.le inv.periodStart eD ∧ Date.le eD inv.periodEnd) →
      ¬ (inv.customer ∈ overdueCustomers env ∧ inv.periodStart.month = 8) →
      inv.status = "paid") ∧
    (∀ inv ∈ billingRows env n sD eD,
      inv.invoiceDate = inv.periodEnd.addDays 5 ∧
      inv.dueDate = inv.invoiceDate.addDays 14) := by
  have hb12 : ∀ k, 1 ≤ (sD.addMonths k).month ∧ (sD.addMonths k).month ≤ 12 :=
    fun k => month_addMonths_bounds sD k
  refine ⟨?_, ?_, ?_, ?_, ?_⟩
  · -- existence of the pending invoice
    intro c hc
    have hk0 : eD.monthIdx - sD.monthIdx < (numMonths sD eD).toNat := by
      have hmle : sD.monthIdx ≤ eD.monthIdx :=
        monthIdx_le_of_toDays_le hs he hse
      have := numMonths_toNat hs.1 he.1 hmle
      omega
    obtain ⟨inv, hmem, hcu, hps, hpe, hst⟩ := exists_mem_billingRows hc hk0 hfit
    have hmi : (sD.addMonths (eD.monthIdx - sD.monthIdx)).monthIdx = eD.monthIdx := by
      have hmle : sD.monthIdx ≤ eD.monthIdx :=
        monthIdx_le_of_toDays_le hs he hse
      rw [monthIdx_addMonths sD _ hs.1]
      omega
    have hym := monthIdx_inj (hb12 _).1 (hb12 _).2 he.1 he.2.1 hmi
    have hcov : Date.le inv.periodStart eD ∧ Date.le eD inv.periodEnd := by
      rw [hps, hpe, mkInvoice_periodStart, mkInvoice_periodEnd]
      exact (first_last_cover_iff he (hb12 _).1 (hb12 _).2).mpr ⟨hym.2, hym.1⟩
    refine ⟨inv, hmem, hcu, hcov.1, hcov.2, ?_⟩
    rw [hst, mkInvoice_status_eq]
    rw [if_pos ⟨hym.2, hym.1⟩]
  · -- any covering invoice is pending
    intro inv hinv h1 h2
    obtain ⟨c, hc, k, hk, hle, heq⟩ := mem_billingRows hinv
    have hps : inv.periodStart = (mkInvoice (readingsRows env n sD eD)
        (overdueCustomers env) sD eD c k).periodStart := by rw [heq]
    have hpe : inv.periodEnd = (mkInvoice (readingsRows env n sD eD)
        (overdueCustomers env) sD eD c k).periodEnd := by rw [heq]
    have hst : inv.status = (mkInvoice (readingsRows env n sD eD)
        (overdueCustomers env) sD eD c k).status := by rw [heq]
    rw [hps, mkInvoice_periodStart] at h1
    rw [hpe, mkInvoice_periodEnd] at h2
    have hym := (first_last_cover_iff he (hb12 k).1 (hb12 k).2).mp ⟨h1, h2⟩
    rw [hst, mkInvoice_status_eq, if_pos hym]
  · -- overdue iff (overdue customer ∧ August) for non-covering invoices
    intro inv hinv hncov
    obtain ⟨c, hc, k, hk, hle, heq⟩ := mem_billingRows hinv
    have hps : inv.periodStart = (mkInvoice (readingsRows env n sD eD)
        (overdueCustomers env) sD eD c k).periodStart := by rw [heq]
    have hpe : inv.periodEnd = (mkInvoice (readingsRows env n sD eD)
        (overdueCustomers env) sD eD c k).periodEnd := by rw [heq]
    have hst : inv.status = (mkInvoice (readingsRows env n sD eD)
        (overdueCustomers env) sD eD c k).status := by rw [heq]
    have hcu : inv.customer = c := by
      rw [heq]
      rfl
    rw [hps, mkInvoice_periodStart] at hncov
    rw [hpe, mkInvoice_periodEnd] at hncov
    have hnym : ¬ ((sD.addMonths k).month = eD.month ∧ (sD.addMonths k).year = eD.year) :=
      fun hym => hncov ((first_last_cover_iff he (hb12 k).1 (hb12 k).2).mpr hym)
    rw [hst, mkInvoice_status_eq, if_neg hnym, hcu, hps, mkInvoice_periodStart, month_mk]
    rcases Decidable.em (c ∈ overdueCustomers env ∧ (sD.addMonths k).month = 8)
      with hq | hq
    · rw [if_pos hq]
      simp only [true_iff]
      exact hq
    · rw [if_neg hq]
      constructor
      · intro hpo
        exact absurd hpo (by decide)
      · intro hrhs
        exact absurd hrhs hq
  · -- otherwise paid
    intro inv hinv hncov hnq
    obtain ⟨c, hc, k, hk, hle, heq⟩ := mem_billingRows hinv
    have hps : inv.periodStart = (mkInvoice (readingsRows env n sD eD)
        (overdueCustomers env) sD eD c k).periodStart := by rw [heq]
    have hpe : inv.periodEnd = (mkInvoice (readingsRows env n sD eD)
        (overdueCustomers env) sD eD c k).periodEnd := by rw [heq]
    have hst : inv.status = (mkInvoice (readingsRows env n sD eD)
        (overdueCustomers env) sD eD c k).status := by rw [heq]
    have hcu : inv.customer = c := by
      rw [heq]
      rfl
    rw [hps, mkInvoice_periodStart] at hncov
    rw [hpe, mkInvoice_periodEnd] at hncov
    rw [hcu, hps, mkInvoice_periodStart, month_mk] at hnq
    have hnym : ¬ ((sD.addMonths k).month = eD.month ∧ (sD.addMonths k).year = eD.year) :=
      fun hym => hncov ((first_last_cover_iff he (hb12 k).1 (hb12 k).2).mpr hym)
    rw [hst, mkInvoice_status_eq, if_neg hnym, if_neg hnq]
  · -- invoice date arithmetic
    intro inv hinv
    obtain ⟨c, hc, k, hk, hle, heq⟩ := mem_billingRows hinv
    have hpe : inv.periodEnd = (mkInvoice (readingsRows env n sD eD)
        (overdueCustomers env) sD eD c k).periodEnd := by rw [heq]
    have hiv : inv.invoiceDate = (mkInvoice (readingsRows env n sD eD)
        (overdueCustomers env) sD eD c k).invoiceDate := by rw [heq]
    have hdu : inv.dueDate = (mkInvoice (readingsRows env n sD eD)
        (overdueCustomers env) sD eD c k).dueDate := by rw [heq]
    constructor
    · rw [hiv, mkInvoice_invoiceDate, hpe]
    · rw [hdu, mkInvoice_dueDate, hiv]

/-! ## Claim C5 -/

theorem customerIds_nil {n : Int} (hn : n ≤ 0) : customerIds n = [] := by
  unfold customerIds
  have h0 : n.toNat = 0 := by omega
  rw [h0]
  rfl

theorem customersRows_nil {env : Env} {n : Int} (hn : n ≤ 0) :
    customersRows env n = [] := by
  unfold customersRows
  rw [customerIds_nil hn]
  rfl

theorem customersRows_ne_nil {env : Env} {n : Int} (hn : 1 ≤ n) :
    customersRows env n ≠ [] := by
  intro h
  have hlen := congrArg List.length h
  simp only [customersRows, customerIds, List.length_map, List.length_range,
    List.length_nil] at hlen
  omega

theorem contractSlots_ne_nil (env : Env) (c : Nat)
    (h : 1 ≤ env.numContracts c) : contractSlots env c ≠ [] := by
  unfold contractSlots
  obtain ⟨m, hm⟩ : ∃ m, env.numContracts c = m + 1 :=
    ⟨env.numContracts c - 1, by omega⟩
  rw [hm, List.range_succ, List.foldl_append]
  simp only [List.foldl_cons, List.foldl_nil]
  split
  · rename_i hmem
    intro hX
    rw [hX] at hmem
    simp at hmem
  · intro hX
    simp at hX

theorem enumAssign_ne_nil {α : Type} (l : List α) (f : Nat × α → α)
    (h : l ≠ []) : l.enum.map f ≠ [] := by
  intro hnil
  have hlen := congrArg List.length hnil
  simp only [List.length_map, List.enum_length, List.length_nil] at hlen
  exact h (List.length_eq_zero.mp hlen)

theorem contractsRows_ne_nil {env : Env} {n : Int} (hn : 1 ≤ n)
    (hnc : ∀ c, 1 ≤ env.numContracts c) : contractsRows env n ≠ [] := by
  have hc : 1001 ∈ customerIds n := mem_customerIds.mpr ⟨0, by omega, by omega⟩
  obtain ⟨slot, hslot⟩ :=
    List.exists_mem_of_ne_nil _ (contractSlots_ne_nil env 1001 (hnc 1001))
  have hmem : contractRow env 1001 slot ∈ (customerIds n).flatMap
      (fun c => (contractSlots env c).map (contractRow env c)) :=
    List.mem_flatMap.mpr ⟨1001, hc, List.mem_map.mpr ⟨slot, hslot, rfl⟩⟩
  unfold contractsRows
  exact enumAssign_ne_nil _ _ (List.ne_nil_of_mem hmem)

theorem billingRows_nil_of_lt {env : Env} {n : Int} {sD eD : Date}
    (hs : sD.Valid) (hlt : Date.lt eD sD) : billingRows env n sD eD = [] := by
  rw [List.eq_nil_iff_forall_not_mem]
  intro inv hinv
  obtain ⟨c, hc, k, hk, hle, heq⟩ := mem_billingRows hinv
  have h1 := toDays_le_addMonths hs k
  have h2 : (sD.addMonths k).toDays ≤ eD.toDays := hle
  have h3 : eD.toDays < sD.toDays := hlt
  omega

theorem billingRows_ne_nil {env : Env} {n : Int} {sD eD : Date} (hn : 1 ≤ n)
    (hs : sD.Valid) (he : eD.Valid) (hle : Date.le sD eD) :
    billingRows env n sD eD ≠ [] := by
  have hc : 1001 ∈ customerIds n := mem_customerIds.mpr ⟨0, by omega, by omega⟩
  have hk0 : 0 < (numMonths sD eD).toNat := by
    have hmle := monthIdx_le_of_toDays_le hs he hle
    have hnm := numMonths_toNat hs.1 he.1 hmle
    omega
  have hle0 : Date.le (sD.addMonths 0) eD := by
    rw [addMonths_zero hs]
    exact hle
  obtain ⟨inv, hmem, -⟩ := exists_mem_billingRows hc hk0 hle0
  exact List.ne_nil_of_mem hmem

theorem supportRows_ne_nil {env : Env} (hcc : env.caseCustomers ≠ [])
    (hcase : ∀ c, 1 ≤ env.numCases c) : supportRows env ≠ [] := by
  obtain ⟨c0, hc0⟩ := List.exists_mem_of_ne_nil _ hcc
  have hmem : caseRow env env.anomalyOrder (overdueCustomers env) c0 0
      ∈ env.caseCustomers.flatMap
        (fun c => (List.range (env.numCases c)).map
          (caseRow env env.anomalyOrder (overdueCustomers env) c)) :=
    List.mem_flatMap.mpr ⟨c0, hc0, List.mem_map.mpr
      ⟨0, List.mem_range.mpr (hcase c0), rfl⟩⟩
  unfold supportRows
  exact enumAssign_ne_nil _ _ (List.ne_nil_of_mem hmem)

/-- C5 fails on the code at its third invalid-input prong: a residential
population smaller than the anomaly sample size never errors, because
`random.sample` is called with `k=min(15, len(all_residential_ids))`.
With one (residential) customer, a valid one-day window and nonempty
support cases, every table is nonempty, so none of the empty-DataFrame
column conversions raises and the run returns the tables normally. -/
theorem c5_counterexample : ¬ claimC5Stated := by
  intro h
  obtain ⟨msg, hmsg⟩ := h anomEnv 1 ⟨2025, 1, 1⟩ ⟨2025, 1, 2⟩
    (Or.inr (Or.inr (by decide)))
  have hok : excOk (generateExc anomEnv 1 ⟨2025, 1, 1⟩ ⟨2025, 1, 2⟩) = true := by
    decide
  rw [hmsg] at hok
  exact Bool.noConfusion hok

/-- C5 (amended): the generator has no input validation, but the
empty-DataFrame column conversions make two of the three invalid inputs
raise anyway.  With `num_customers ≤ 0` the customers table is empty and
its `JOIN_DATE` conversion (line 54) raises `KeyError: 'JOIN_DATE'`.
With `end_date` before `start_date` (and at least one customer) the run
first builds the customers and contracts tables, every billing month
offset is then skipped, and the empty billing table's conversion
(line 169) raises `KeyError: 'INVOICE_DATE'` — an incidental `KeyError`,
not a descriptive validation error, and not fail-fast.  With at least one
customer and a valid window the run completes and returns the tables
regardless of the size of the residential population, since the anomaly
sample size is clamped. -/
theorem c5_amended (env : Env) (n : Int) (sD eD : Date)
    (hs : sD.Valid) (he : eD.Valid)
    (hnc : ∀ c, 1 ≤ env.numContracts c) :
    (n ≤ 0 → generateExc env n sD eD = Except.error "KeyError: 'JOIN_DATE'") ∧
    (1 ≤ n → Date.lt eD sD →
      generateExc env n sD eD = Except.error "KeyError: 'INVOICE_DATE'") ∧
    (1 ≤ n → Date.le sD eD → env.caseCustomers ≠ [] →
      (∀ c, 1 ≤ env.numCases c) →
      generateExc env n sD eD = Except.ok (generate env n sD eD)) := by
  refine ⟨?_, ?_, ?_⟩
  · intro hn
    unfold generateExc
    rw [if_pos (customersRows_nil hn)]
  · intro hn hlt
    unfold generateExc
    rw [if_neg (customersRows_ne_nil hn), if_neg (contractsRows_ne_nil hn hnc),
      if_pos (billingRows_nil_of_lt hs hlt)]
  · intro hn hle hcc hcase
    unfold generateExc
    rw [if_neg (customersRows_ne_nil hn), if_neg (contractsRows_ne_nil hn hnc),
      if_neg (billingRows_ne_nil hn hs he hle),
      if_neg (supportRows_ne_nil hcc hcase)]

/-- Witness for C5 (amended): with one customer and the end date before
the start date the run stops with the billing-table key error. -/
theorem c5_witness :
    generateExc anomEnv 1 ⟨2025, 1, 2⟩ ⟨2025, 1, 1⟩
      = Except.error "KeyError: 'INVOICE_DATE'" :=
  (c5_amended anomEnv 1 ⟨2025, 1, 2⟩ ⟨2025, 1, 1⟩ (by decide) (by decide)
    (fun _ => Nat.le_refl 1)).2.1 (by omega) (by decide)

/-! ## Claim C1 -/

theorem mkInvoice_amount (rs : List Reading) (od : List Nat)
    (sD eD : Date) (c k : Nat) :
    (mkInvoice rs od sD eD c k).amount
      = round2 (sumKwhIn rs c (mkInvoice rs od sD eD c k).periodStart
          (mkInvoice rs od sD eD c k).periodEnd * (35 / 100) + 11 / 2) := by
  simp only [mkInvoice]

theorem readingsRows_time_bounds {env : Env} {n : Int} {sD eD : Date}
    (hh : ∀ c d, env.hour c d ≤ 23) (hm : ∀ c d, env.minute c d ≤ 59) :
    ∀ r ∈ readingsRows env n sD eD, r.ts.hour ≤ 23 ∧ r.ts.minute ≤ 59 := by
  intro r hr
  obtain ⟨c, hc, day, hday, heq⟩ := mem_readingsRows hr
  have h1 : r.ts.hour = env.hour c day := by
    rw [heq]
    rfl
  have h2 : r.ts.minute = env.minute c day := by
    rw [heq]
    rfl
  rw [h1, h2]
  exact ⟨hh c day, hm c day⟩

/-- The billing-stage timestamp filter, characterised at calendar-day
granularity: because `period_start` and `period_end` are midnight
timestamps and reading times are within the day, `TIMESTAMP >= ps`
means "day ≥ ps" while `TIMESTAMP <= pe` means "day < pe, or day = pe
with the reading drawn exactly at midnight". -/
theorem sumKwhIn_eq_codeDaySum (rs : List Reading)
    (hb : ∀ r ∈ rs, r.ts.hour ≤ 23 ∧ r.ts.minute ≤ 59) (c : Nat) (ps pe : Date) :
    sumKwhIn rs c ps pe = codeDaySum rs c ps pe := by
  unfold sumKwhIn codeDaySum
  have hfe : ∀ r ∈ rs,
      (r.customer == c
          && decide (DateTime.le (DateTime.midnight ps) r.ts)
          && decide (DateTime.le r.ts (DateTime.midnight pe)))
        = (r.customer == c
          && decide (Date.le ps r.ts.date)
          && (decide (Date.lt r.ts.date pe)
              || (decide (r.ts.date.toDays = pe.toDays)
                  && r.ts.hour == 0 && r.ts.minute == 0))) := by
    intro r hr
    obtain ⟨hhr, hmr⟩ := hb r hr
    cases hcu : (r.customer == c) with
    | false => simp [hcu]
    | true =>
      rw [Bool.eq_iff_iff]
      simp only [hcu, Bool.true_and, Bool.and_eq_true, Bool.or_eq_true,
        decide_eq_true_eq, beq_iff_eq, DateTime.le, DateTime.toMinutes,
        DateTime.midnight, Date.le, Date.lt]
      omega
  rw [List.filter_congr hfe]

theorem c1_helper_mem_fields {env : Env} {n : Int} {sD eD : Date} {inv : Invoice}
    (hinv : inv ∈ billingRows env n sD eD) :
    ∃ c k, inv.customer = c ∧
      inv.amount = (mkInvoice (readingsRows env n sD eD) (overdueCustomers env)
        sD eD c k).amount ∧
      inv.periodStart = (mkInvoice (readingsRows env n sD eD) (overdueCustomers env)
        sD eD c k).periodStart ∧
      inv.periodEnd = (mkInvoice (readingsRows env n sD eD) (overdueCustomers env)
        sD eD c k).periodEnd := by
  obtain ⟨c, hc, k, hk, hle, heq⟩ := mem_billingRows hinv
  refine ⟨c, k, ?_, ?_, ?_, ?_⟩
  · rw [heq]
    rfl
  · rw [heq]
  · rw [heq]
  · rw [heq]

/-- C1 fails on the code: readings carry a random time-of-day, while the
filter compares full timestamps against midnight period bounds, so the
last period day's reading is excluded whenever its time is not 00:00.
With a two-day window and 12:00 readings of 10 kWh the code bills
`round(10·0.35 + 5.50, 2) = 9.0`, not `round(20·0.35 + 5.50, 2) = 12.5`. -/
theorem c1_counterexample :
    ¬ claimC1Stated demoEnv 1 ⟨2025, 1, 1⟩ ⟨2025, 1, 2⟩ := by
  unfold claimC1Stated
  decide

/-- C1 (amended): `AMOUNT_DUE` equals `round(0.35 × S' + 5.50, 2)` where
`S'` sums the customer's readings whose calendar day is ≥ the period
start and either strictly before the period end, or on the period end
day with the randomized reading time exactly midnight. -/
theorem c1_amended (env : Env) (n : Int) (sD eD : Date)
    (hh : ∀ c d, env.hour c d ≤ 23) (hm : ∀ c d, env.minute c d ≤ 59) :
    ∀ inv ∈ billingRows env n sD eD,
      inv.amount = round2 (codeDaySum (readingsRows env n sD eD) inv.customer
        inv.periodStart inv.periodEnd * (35 / 100) + 11 / 2) := by
  intro inv hinv
  obtain ⟨c, k, hcu, ham, hps, hpe⟩ := c1_helper_mem_fields hinv
  rw [ham, mkInvoice_amount, hcu, hps, hpe,
    sumKwhIn_eq_codeDaySum _ (readingsRows_time_bounds hh hm) c]

/-- Witness for C1 (amended) at the counterexample scenario's invoice. -/
theorem c1_witness :
    (⟨80001, 1001, ⟨2025, 1, 7⟩, ⟨2025, 1, 21⟩, 9, "pending", ⟨2025, 1, 1⟩,
        ⟨2025, 1, 2⟩⟩ : Invoice).amount
      = round2 (codeDaySum (readingsRows demoEnv 1 ⟨2025, 1, 1⟩ ⟨2025, 1, 2⟩)
          (⟨80001, 1001, ⟨2025, 1, 7⟩, ⟨2025, 1, 21⟩, 9, "pending", ⟨2025, 1, 1⟩,
            ⟨2025, 1, 2⟩⟩ : Invoice).customer
          (⟨80001, 1001, ⟨2025, 1, 7⟩, ⟨2025, 1, 21⟩, 9, "pending", ⟨2025, 1, 1⟩,
            ⟨2025, 1, 2⟩⟩ : Invoice).periodStart
          (⟨80001, 1001, ⟨2025, 1, 7⟩, ⟨2025, 1, 21⟩, 9, "pending", ⟨2025, 1, 1⟩,
            ⟨2025, 1, 2⟩⟩ : Invoice).periodEnd * (35 / 100) + 11 / 2) :=
  c1_amended demoEnv 1 ⟨2025, 1, 1⟩ ⟨2025, 1, 2⟩
    (fun c d => by show (12 : Nat) ≤ 23; decide)
    (fun c d => by show (0 : Nat) ≤ 59; decide) _ (by decide)

/-- Witness for C4 (amended): window 2025-01-01 .. 2025-02-15 where the
end month's invoice exists; instantiated at customer 1001. -/
theorem c4_witness :
    ∃ inv ∈ billingRows demoEnv 1 ⟨2025, 1, 1⟩ ⟨2025, 2, 15⟩, inv.customer = 1001 ∧
      Date.le inv.periodStart ⟨2025, 2, 15⟩ ∧
      Date.le ⟨2025, 2, 15⟩ inv.periodEnd ∧
      inv.status = "pending" :=
  (c4_amended demoEnv 1 ⟨2025, 1, 1⟩ ⟨2025, 2, 15⟩ (by decide) (by decide) (by decide)
    (by decide)).1 1001 (by decide)

/-! ## Claims C6 and C9: support cases -/

theorem caseRow_customer (env : Env) (anomaly overdue : List Nat) (c j : Nat) :
    (caseRow env anomaly overdue c j).customer = c := by
  unfold caseRow
  split
  · rfl
  · split
    · rfl
    · rfl

theorem caseRow_anomaly_fields (env : Env) (anomaly overdue : List Nat)
    (c j : Nat) (hc : c ∈ anomaly) :
    (caseRow env anomaly overdue c j).caseDate
        = anomalySpikeDate.addDays (15 + env.caseOff c j) ∧
      (caseRow env anomaly overdue c j).description = anomalyCaseText := by
  unfold caseRow
  rw [if_pos hc]
  exact ⟨rfl, rfl⟩

theorem caseRow_overdue_fields (env : Env) (anomaly overdue : List Nat)
    (c j : Nat) (hna : c ∉ anomaly) (ho : c ∈ overdue) :
    (caseRow env anomaly overdue c j).caseDate
        = anomalySpikeDate.addDays (30 + env.caseOff c j) ∧
      (caseRow env anomaly overdue c j).description = overdueCaseText := by
  unfold caseRow
  rw [if_neg hna, if_pos ho]
  exact ⟨rfl, rfl⟩

/-- C6: every support case of an anomaly customer is dated
`anomaly_date + d` with `d ∈ [15, 20]` (the code draws
`15 + randint(1, 5) ∈ [16, 20] ⊆ [15, 20]`), every case produced by the
overdue branch — an overdue customer that is *not* an anomaly customer —
is dated `anomaly_date + d` with `d ∈ [30, 35]`, and the anomaly branch
takes priority: an anomaly customer gets the anomaly dating even when
also overdue. -/
theorem c6_support_case_dates (env : Env)
    (hoff : ∀ c j, 1 ≤ env.caseOff c j ∧ env.caseOff c j ≤ 5) :
    ∀ cs ∈ supportRows env,
      (cs.customer ∈ env.anomalyOrder →
        ∃ d, 15 ≤ d ∧ d ≤ 20 ∧ cs.caseDate = anomalySpikeDate.addDays d) ∧
      (cs.customer ∉ env.anomalyOrder → cs.customer ∈ overdueCustomers env →
        ∃ d, 30 ≤ d ∧ d ≤ 35 ∧ cs.caseDate = anomalySpikeDate.addDays d) := by
  intro cs hcs
  obtain ⟨c, hc, j, hj, heq⟩ := mem_supportRows hcs
  have hcu : cs.customer = c := by
    rw [heq]
    show (caseRow env env.anomalyOrder (overdueCustomers env) c j).customer = c
    exact caseRow_customer env env.anomalyOrder (overdueCustomers env) c j
  have hcd : cs.caseDate
      = (caseRow env env.anomalyOrder (overdueCustomers env) c j).caseDate := by
    rw [heq]
  constructor
  · intro hmem
    rw [hcu] at hmem
    obtain ⟨h1, _⟩ := caseRow_anomaly_fields env env.anomalyOrder (overdueCustomers env)
      c j hmem
    refine ⟨15 + env.caseOff c j, ?_, ?_, ?_⟩
    · omega
    · have := hoff c j
      omega
    · rw [hcd, h1]
  · intro hnmem hod
    rw [hcu] at hnmem hod
    obtain ⟨h1, _⟩ := caseRow_overdue_fields env env.anomalyOrder (overdueCustomers env)
      c j hnmem hod
    refine ⟨30 + env.caseOff c j, ?_, ?_, ?_⟩
    · omega
    · have := hoff c j
      omega
    · rw [hcd, h1]

/-- Witness for C6 at the single support case of `anomEnv` (case date
`2025-08-15 + 18 = 2025-09-02`). -/
theorem c6_witness :
    ∃ d, 15 ≤ d ∧ d ≤ 20 ∧
      (⟨101, 1001, ⟨2025, 9, 2⟩, "billing inquiry", "closed",
          anomalyCaseText⟩ : SupportCase).caseDate
        = anomalySpikeDate.addDays d :=
  (c6_support_case_dates anomEnv
      (fun c j => ⟨by show 1 ≤ 3; decide, by show 3 ≤ 5; decide⟩)
      _ (by decide)).1 (by decide)

/-- C9: the overdue set is `list(anomaly_customers)[:7]`, hence a subset
of the anomaly set (all of it when fewer than 7), and — since the
anomaly sample is drawn from the residential ids — every overdue
customer is a residential anomaly customer; consequently the support
stage's overdue branch is dead code: no generated case ever carries the
overdue-branch description. -/
theorem c9_overdue_subset (env : Env) (n : Int)
    (hres : ∀ c ∈ env.anomalyOrder, c ∈ residentialIds env n) :
    (∀ c ∈ overdueCustomers env,
      c ∈ env.anomalyOrder ∧ c ∈ residentialIds env n) ∧
    (∀ cs ∈ supportRows env, cs.description ≠ overdueCaseText) := by
  constructor
  · intro c hc
    have hmem : c ∈ env.anomalyOrder := List.take_subset 7 env.anomalyOrder hc
    exact ⟨hmem, hres c hmem⟩
  · intro cs hcs
    obtain ⟨c, hc, j, hj, heq⟩ := mem_supportRows hcs
    have hcd : cs.description
        = (caseRow env env.anomalyOrder (overdueCustomers env) c j).description := by
      rw [heq]
    rw [hcd]
    unfold caseRow
    split
    · show anomalyCaseText ≠ overdueCaseText
      decide
    · rename_i hna
      split
      · rename_i ho
        exact absurd (List.take_subset 7 env.anomalyOrder ho) hna
      · show generalCaseText ≠ overdueCaseText
        decide

/-- Witness for C9 at `anomEnv` (anomaly customer 1001 is overdue,
anomalous and residential). -/
theorem c9_witness :
    1001 ∈ anomEnv.anomalyOrder ∧ 1001 ∈ residentialIds anomEnv 1 :=
  (c9_overdue_subset anomEnv 1 (by decide)).1 1001 (by decide)

/-- Witness for C3 (amended) at the counterexample scenario's invoice. -/
theorem c3_witness :
    ((⟨80001, 1001, ⟨2025, 1, 25⟩, ⟨2025, 2, 8⟩, 23, "pending", ⟨2025, 1, 1⟩,
        ⟨2025, 1, 20⟩⟩ : Invoice).periodStart.day = 1 ∧
      (⟨80001, 1001, ⟨2025, 1, 25⟩, ⟨2025, 2, 8⟩, 23, "pending", ⟨2025, 1, 1⟩,
        ⟨2025, 1, 20⟩⟩ : Invoice).periodEnd
        = Date.minD (lastOfMonth (⟨80001, 1001, ⟨2025, 1, 25⟩, ⟨2025, 2, 8⟩, 23,
            "pending", ⟨2025, 1, 1⟩, ⟨2025, 1, 20⟩⟩ : Invoice).periodStart)
          ⟨2025, 1, 20⟩) :=
  c3_amended demoEnv 1 ⟨2025, 1, 15⟩ ⟨2025, 1, 20⟩ _ (by decide)

/-! ## Claim C8 -/

theorem readingRow_gen (env : Env) (solar anomaly : List Nat) (c : Nat) (day : Date) :
    (readingRow env solar anomaly c day).gen
      = round2 (max 0 (if c ∈ solar ∧ (day.month = 6 ∨ day.month = 7 ∨ day.month = 8)
          then env.genVal c day else 0)) := rfl

theorem readingRow_kwh (env : Env) (solar anomaly : List Nat) (c : Nat) (day : Date) :
    (readingRow env solar anomaly c day).kwh
      = round2 (max 0 (if c ∈ anomaly ∧ Date.le (anomalySpikeDate.predDay.predDay) day ∧
            Date.le day (anomalySpikeDate.addDays 2)
          then env.base c day * env.spikeFactor c day else env.base c day)) := rfl

theorem readingRow_gen_zero (env : Env) (solar anomaly : List Nat) (c : Nat) (day : Date)
    (hcond : ¬ (c ∈ solar ∧ (day.month = 6 ∨ day.month = 7 ∨ day.month = 8))) :
    (readingRow env solar anomaly c day).gen = 0 := by
  rw [readingRow_gen, if_neg hcond]
  decide

/-- C8: a reading with positive `KW_GENERATION` belongs to a customer
holding a solar-panel-lease contract, and its calendar day's month is
June, July or August (otherwise the generator stores
`round(max(0, 0.0), 2) = 0`). -/
theorem c8_generation_solar (env : Env) (n : Int) (sD eD : Date) (r : Reading)
    (hr : r ∈ readingsRows env n sD eD) (hpos : 0 < r.gen) :
    (∃ ct ∈ contractsRows env n, ct.customer = r.customer ∧
      ct.serviceType = "solar panel lease") ∧
    (r.ts.date.month = 6 ∨ r.ts.date.month = 7 ∨ r.ts.date.month = 8) := by
  obtain ⟨c, hc, day, hday, heq⟩ := mem_readingsRows hr
  have hgen : r.gen
      = (readingRow env (solarCustomers env n) env.anomalyOrder c day).gen := by
    rw [heq]
  have hdate : r.ts.date = day := by
    rw [heq]
    rfl
  have hcu : r.customer = c := by
    rw [heq]
    rfl
  by_cases hcond : c ∈ solarCustomers env n ∧
      (day.month = 6 ∨ day.month = 7 ∨ day.month = 8)
  · obtain ⟨hsol, hmon⟩ := hcond
    unfold solarCustomers at hsol
    obtain ⟨ct, hctf, hceq⟩ := List.mem_map.mp hsol
    refine ⟨⟨ct, List.mem_of_mem_filter hctf, ?_, ?_⟩, ?_⟩
    · rw [hcu, hceq]
    · have hq := List.of_mem_filter hctf
      simpa using hq
    · rw [hdate]
      exact hmon
  · exfalso
    rw [hgen, readingRow_gen_zero env _ _ c day hcond] at hpos
    exact lt_irrefl 0 hpos

/-- Witness for C8 at `solarEnv`'s single June reading (generation 2). -/
theorem c8_witness :
    (∃ ct ∈ contractsRows solarEnv 1,
      ct.customer = (⟨100001, 1001, "MTR-13346", ⟨⟨2025, 6, 1⟩, 12, 0⟩, 10,
        2⟩ : Reading).customer ∧
      ct.serviceType = "solar panel lease") ∧
    ((⟨100001, 1001, "MTR-13346", ⟨⟨2025, 6, 1⟩, 12, 0⟩, 10,
        2⟩ : Reading).ts.date.month = 6 ∨
      (⟨100001, 1001, "MTR-13346", ⟨⟨2025, 6, 1⟩, 12, 0⟩, 10,
        2⟩ : Reading).ts.date.month = 7 ∨
      (⟨100001, 1001, "MTR-13346", ⟨⟨2025, 6, 1⟩, 12, 0⟩, 10,
        2⟩ : Reading).ts.date.month = 8) :=
  c8_generation_solar solarEnv 1 ⟨2025, 6, 1⟩ ⟨2025, 6, 1⟩ _ (by decide) (by decide)

/-! ## Claim C7 -/

theorem round2_nonneg {q : ℚ} (h : 0 ≤ q) : 0 ≤ round2 q := by
  unfold round2
  have h1 : (0 : ℤ) ≤ (q * 100 + 1 / 2).floor := by
    have hbr : ((q * 100 + 1 / 2).floor : ℤ) = ⌊(q * 100 + 1 / 2 : ℚ)⌋ := rfl
    rw [hbr, Int.le_floor]
    push_cast
    nlinarith
  have h2 : (0 : ℚ) ≤ ((q * 100 + 1 / 2).floor : ℚ) := by exact_mod_cast h1
  positivity

theorem readingRow_customer (env : Env) (solar anomaly : List Nat)
    (c : Nat) (day : Date) :
    (readingRow env solar anomaly c day).customer = c := rfl

theorem readingRow_ts_date (env : Env) (solar anomaly : List Nat)
    (c : Nat) (day : Date) :
    (readingRow env solar anomaly c day).ts.date = day := rfl

theorem readingsRows_countP (env : Env) (n : Int) (sD eD : Date)
    (p : Reading → Bool)
    (hid : ∀ (i : Nat) (r : Reading), p { r with rid := i } = p r)
    (c : Nat) (hc : c ∈ customerIds n)
    (hcust : ∀ r : Reading, p r = true → r.customer = c) :
    (readingsRows env n sD eD).countP p
      = ((dateRange sD eD).map
          (readingRow env (solarCustomers env n) env.anomalyOrder c)).countP p := by
  unfold readingsRows
  rw [countP_enum_assign _ _ _ (fun i a => hid (100001 + i) a)]
  refine countP_flatMap_single _ _ _ c hc (customerIds_nodup n) ?_
  intro c' hc' hne
  rw [List.countP_eq_zero]
  intro r hrm hp
  obtain ⟨day, hday, rfl⟩ := List.mem_map.mp hrm
  exact hne (hcust _ hp)

/-- C7: for every customer id and every valid calendar day inside
`[start_date, end_date]` there is exactly one reading, and every
reading's consumption and generation are non-negative (they are
`round(max(0, …), 2)`). -/
theorem c7_readings_complete (env : Env) (n : Int) (sD eD : Date)
    (hs : sD.Valid) (he : eD.Valid) :
    (∀ c ∈ customerIds n, ∀ day : Date, day.Valid →
      Date.le sD day → Date.le day eD →
      ((readingsRows env n sD eD).countP
        (fun r => r.customer == c && r.ts.date == day)) = 1) ∧
    (∀ r ∈ readingsRows env n sD eD, 0 ≤ r.kwh ∧ 0 ≤ r.gen) := by
  constructor
  · intro c hc day hvday h1 h2
    rw [readingsRows_countP env n sD eD
      (fun r => r.customer == c && r.ts.date == day)
      (fun i r => rfl) c hc
      (fun r hp => by
        simp only [Bool.and_eq_true, beq_iff_eq] at hp
        exact hp.1)]
    rw [List.countP_map]
    have hcongr : ∀ x ∈ dateRange sD eD,
        (((fun r => r.customer == c && r.ts.date == day) ∘
          (readingRow env (solarCustomers env n) env.anomalyOrder c)) x = true
          ↔ (x == day) = true) := by
      intro x hx
      constructor
      · intro hxx
        simp only [Function.comp_apply, Bool.and_eq_true, beq_iff_eq,
          readingRow_customer, readingRow_ts_date] at hxx
        simp only [beq_iff_eq]
        exact hxx.2
      · intro hxx
        simp only [beq_iff_eq] at hxx
        simp only [Function.comp_apply, Bool.and_eq_true, beq_iff_eq,
          readingRow_customer, readingRow_ts_date]
        exact ⟨trivial, hxx⟩
    rw [List.countP_congr hcongr]
    have hcnt : (dateRange sD eD).countP (fun x => x == day)
        = (dateRange sD eD).count day := rfl
    rw [hcnt]
    exact count_dateRange hs hvday h1 h2
  · intro r hr
    obtain ⟨c, hc, day, hday, heq⟩ := mem_readingsRows hr
    have hk : r.kwh
        = (readingRow env (solarCustomers env n) env.anomalyOrder c day).kwh := by
      rw [heq]
    have hg : r.gen
        = (readingRow env (solarCustomers env n) env.anomalyOrder c day).gen := by
      rw [heq]
    constructor
    · rw [hk, readingRow_kwh]
      exact round2_nonneg (le_max_left 0 _)
    · rw [hg, readingRow_gen]
      exact round2_nonneg (le_max_left 0 _)

/-- Witness for C7 at a three-day August window, day 2025-08-15. -/
theorem c7_witness :
    ((readingsRows demoEnv 1 ⟨2025, 8, 14⟩ ⟨2025, 8, 16⟩).countP
      (fun r => r.customer == 1001 && r.ts.date == (⟨2025, 8, 15⟩ : Date))) = 1 :=
  (c7_readings_complete demoEnv 1 ⟨2025, 8, 14⟩ ⟨2025, 8, 16⟩ (by decide)
    (by decide)).1 1001 (by decide) ⟨2025, 8, 15⟩ (by decide) (by decide) (by decide)

/-! ## Claim C10 -/

theorem digitsRev_eq_digits : ∀ fuel n, n ≤ fuel → digitsRev fuel n = Nat.digits 10 n := by
  intro fuel
  induction fuel with
  | zero =>
    intro n hn
    have h0 : n = 0 := by omega
    subst h0
    show ([] : List Nat) = Nat.digits 10 0
    rw [Nat.digits_zero]
  | succ fuel ih =>
    intro n hn
    match n with
    | 0 =>
      show ([] : List Nat) = Nat.digits 10 0
      rw [Nat.digits_zero]
    | n + 1 =>
      show ((n + 1) % 10) :: digitsRev fuel ((n + 1) / 10) = _
      rw [ih ((n + 1) / 10) (by omega)]
      rw [Nat.digits_def' (by norm_num : 1 < 10) (Nat.succ_pos n)]

theorem digitChar_inj_lt : ∀ a < 10, ∀ b < 10, digitChar a = digitChar b → a = b := by
  decide

theorem map_digitChar_inj : ∀ (l1 l2 : List Nat),
    (∀ d ∈ l1, d < 10) → (∀ d ∈ l2, d < 10) →
    l1.map digitChar = l2.map digitChar → l1 = l2
  | [], [], _, _, _ => rfl
  | [], b :: l2, _, _, h => by simp at h
  | a :: l1, [], _, _, h => by simp at h
  | a :: l1, b :: l2, h1, h2, h => by
    simp only [List.map_cons, List.cons.injEq] at h
    have ha := h1 a (by simp)
    have hb := h2 b (by simp)
    have hab := digitChar_inj_lt a ha b hb h.1
    rw [hab, map_digitChar_inj l1 l2 (fun d hd => h1 d (by simp [hd]))
      (fun d hd => h2 d (by simp [hd])) h.2]

theorem decimalStr_inj {a b : Nat} (h : decimalStr a = decimalStr b) : a = b := by
  unfold decimalStr at h
  have hdata := congrArg String.data h
  simp only at hdata
  rw [digitsRev_eq_digits a a (Nat.le_refl a),
    digitsRev_eq_digits b b (Nat.le_refl b)] at hdata
  have hlt1 : ∀ d ∈ (Nat.digits 10 a).reverse, d < 10 := fun d hd =>
    Nat.digits_lt_base (by norm_num) (List.mem_reverse.mp hd)
  have hlt2 : ∀ d ∈ (Nat.digits 10 b).reverse, d < 10 := fun d hd =>
    Nat.digits_lt_base (by norm_num) (List.mem_reverse.mp hd)
  have hrev := map_digitChar_inj _ _ hlt1 hlt2 hdata
  have hdig : Nat.digits 10 a = Nat.digits 10 b := by
    have := congrArg List.reverse hrev
    simpa using this
  have := congrArg (Nat.ofDigits 10) hdig
  rwa [Nat.ofDigits_digits, Nat.ofDigits_digits] at this

/-- C10: every reading's `METER_ID` is the string `MTR-` followed by the
decimal rendering of the numeric customer id plus 12345; readings of the
same customer share one meter id and readings of distinct customers have
distinct meter ids (decimal rendering is injective). -/
theorem c10_meter_ids (env : Env) (n : Int) (sD eD : Date) :
    (∀ r ∈ readingsRows env n sD eD,
      r.meterId = "MTR-" ++ decimalStr (r.customer + 12345)) ∧
    (∀ r ∈ readingsRows env n sD eD, ∀ r2 ∈ readingsRows env n sD eD,
      (r.customer = r2.customer → r.meterId = r2.meterId) ∧
      (r.customer ≠ r2.customer → r.meterId ≠ r2.meterId)) := by
  have hfield : ∀ r ∈ readingsRows env n sD eD,
      r.meterId = "MTR-" ++ decimalStr (r.customer + 12345) := by
    intro r hr
    obtain ⟨c, hc, day, hday, heq⟩ := mem_readingsRows hr
    have h1 : r.meterId = meterIdOf c := by
      rw [heq]
      rfl
    have h2 : r.customer = c := by
      rw [heq]
      rfl
    rw [h1, h2]
    rfl
  refine ⟨hfield, ?_⟩
  intro r hr r2 hr2
  constructor
  · intro hcc
    rw [hfield r hr, hfield r2 hr2, hcc]
  · intro hne hmeq
    rw [hfield r hr, hfield r2 hr2] at hmeq
    have hdata := congrArg String.data hmeq
    rw [String.data_append, String.data_append] at hdata
    have hcancel := List.append_cancel_left hdata
    have hstr : decimalStr (r.customer + 12345) = decimalStr (r2.customer + 12345) := by
      apply String.ext
      exact hcancel
    have := decimalStr_inj hstr
    omega

/-- Witness for C10: the two customers of a two-customer run carry
distinct meter ids. -/
theorem c10_witness :
    (⟨100001, 1001, "MTR-13346", ⟨⟨2025, 1, 1⟩, 12, 0⟩, 10, 0⟩ : Reading).meterId
      ≠ (⟨100002, 1002, "MTR-13347", ⟨⟨2025, 1, 1⟩, 12, 0⟩, 10, 0⟩ : Reading).meterId :=
  ((c10_meter_ids demoEnv 2 ⟨2025, 1, 1⟩ ⟨2025, 1, 1⟩).2 _ (by decide) _
    (by decide)).2 (by decide)

end EnergyDemo
